import Mathlib

/-!
Verification of the solstice-agent runtime against its specification.

This file shallowly embeds the relevant parts of the Python source
(`solstice_agent/tools/terminal.py`, `tools/security.py`, `tools/web.py`,
`agent/compactor.py`, `agent/core.py`, `agent/scheduler.py`,
`agent/router.py`) as executable Lean definitions and proves the spec's
claims about them.

Conventions used throughout:
* Python strings are modelled as Lean `String` / `List Char`; `len` is the
  codepoint count, matching Python.
* Python regular-expression operations are hand-translated to character-level
  scanners with the same matching semantics on the inputs they are applied to.
* The compiled destructive-pattern regex `_DANGEROUS_RE` is treated as a
  parameter `search : String → Option String` (returning `match.group()`);
  the claims proved here hold for every such matcher.
* External effects (running a subprocess, HTTP requests, DNS) are modelled as
  explicit parameters, and the functions return the trace of effects they
  would perform, so "never starts a subprocess" is a statement about the
  returned trace.
-/

namespace Solstice

/-! ### Python string helpers -/

/-- The characters Python's `str.strip()` removes (ASCII whitespace). -/
def isPySpace (c : Char) : Bool :=
  c = ' ' || c = '\t' || c = '\n' || c = '\r' || c = '\x0b' || c = '\x0c'

/-- `[a-zA-Z]` -/
def isAsciiLetter (c : Char) : Bool :=
  ('a' ≤ c && c ≤ 'z') || ('A' ≤ c && c ≤ 'Z')

/-- Single-quote character (written numerically to keep scanners happy). -/
def squote : Char := Char.ofNat 39

/-- Double-quote character. -/
def dquote : Char := Char.ofNat 34

/-- Backtick character. -/
def btick : Char := Char.ofNat 96

def isQuoteChar (c : Char) : Bool := c = squote || c = dquote

/-- Python `str.strip()` on a character list. -/
def stripChars (cs : List Char) : List Char :=
  ((cs.dropWhile isPySpace).reverse.dropWhile isPySpace).reverse

/-- Python `str.strip()`. -/
def pyStrip (s : String) : String := ⟨stripChars s.data⟩

/-! ### terminal.py — `_normalize_command`

`re.sub` passes are translated one at a time, scanning left to right with
non-overlapping matches, exactly as `re.sub` does. -/

/-- First pass: a dollar sign, optional open brace, `IFS`, optional close brace
is replaced by a single space (both optional parts are greedy). The `fuel`
argument only drives the recursion; every step consumes at least one
character, so `fuel = length` always suffices. -/
def subIFSFuel : Nat → List Char → List Char
  | 0, cs => cs
  | fuel + 1, cs =>
    match cs with
    | [] => []
    | '$' :: '{' :: 'I' :: 'F' :: 'S' :: '}' :: r => ' ' :: subIFSFuel fuel r
    | '$' :: '{' :: 'I' :: 'F' :: 'S' :: r => ' ' :: subIFSFuel fuel r
    | '$' :: 'I' :: 'F' :: 'S' :: '}' :: r => ' ' :: subIFSFuel fuel r
    | '$' :: 'I' :: 'F' :: 'S' :: r => ' ' :: subIFSFuel fuel r
    | c :: rest => c :: subIFSFuel fuel rest

def subIFS (cs : List Char) : List Char := subIFSFuel cs.length cs

/-- Second pass: a backslash directly before an ASCII letter is deleted
(the letter is a lookahead and is kept). -/
def subBackslash : List Char → List Char
  | [] => []
  | ['\\'] => ['\\']
  | '\\' :: c :: rest =>
    if isAsciiLetter c then subBackslash (c :: rest)
    else '\\' :: subBackslash (c :: rest)
  | c :: rest => c :: subBackslash rest

/-- Third pass: a quote between two ASCII letters is deleted. The lookbehind
inspects the character of the original string just before the scan position. -/
def subQuoteBetween : Option Char → List Char → List Char
  | _, [] => []
  | prev, c :: rest =>
    if isQuoteChar c
        && (match prev with | some p => isAsciiLetter p | none => false)
        && (match rest with | n :: _ => isAsciiLetter n | [] => false)
    then subQuoteBetween (some c) rest
    else c :: subQuoteBetween (some c) rest

/-- Fourth pass: a quote directly before an ASCII letter is deleted. -/
def subQuoteBefore : List Char → List Char
  | [] => []
  | c :: rest =>
    if isQuoteChar c && (match rest with | n :: _ => isAsciiLetter n | [] => false)
    then subQuoteBefore rest
    else c :: subQuoteBefore rest

/-- `_normalize_command`: the four `re.sub` passes in source order. -/
def normalize_command (s : String) : String :=
  ⟨subQuoteBefore (subQuoteBetween none (subBackslash (subIFS s.data)))⟩

/-! ### terminal.py — splitting on shell metacharacters

`re.split` on whitespace-padded `;`, `&&`, `||`, `|` (alternatives tried in
that order, as in the source pattern). -/

/-- The operator part of the split pattern: `;`, `&&`, `||` or `|` (the
alternatives are tried in this order, so two pipes are always consumed
together). Returns the characters after the operator. -/
def sepTail (w : List Char) : Option (List Char) :=
  match w with
  | a :: b :: r =>
    if a = ';' then some (b :: r)
    else if a = '&' && b = '&' then some r
    else if a = '|' && b = '|' then some r
    else if a = '|' then some (b :: r)
    else none
  | [a] => if a = ';' then some [] else if a = '|' then some [] else none
  | [] => none

/-- If a separator match begins at this position, return the remainder after
the whole match (leading whitespace, the operator, trailing whitespace). -/
def stripSeparator (cs : List Char) : Option (List Char) :=
  (sepTail (cs.dropWhile isPySpace)).map (·.dropWhile isPySpace)

/-- `re.split` of the source pattern: scan left to right, cutting at each
separator match. Every step consumes at least one character, so
`fuel = length` suffices. -/
def splitSegmentsFuel : Nat → List Char → List Char → List (List Char)
  | 0, cs, acc => [acc.reverse ++ cs]
  | fuel + 1, cs, acc =>
    match cs with
    | [] => [acc.reverse]
    | c :: rest =>
      match stripSeparator (c :: rest) with
      | some r => acc.reverse :: splitSegmentsFuel fuel r []
      | none => splitSegmentsFuel fuel rest (c :: acc)

def segmentsOf (command : String) : List String :=
  (splitSegmentsFuel command.data.length command.data []).map fun cs => ⟨cs⟩

/-! ### terminal.py — command-substitution extraction

`re.findall` with a lazy one-or-more group: the content is at least one
character, contains no newline (`.` does not match a newline), and ends at
the first possible closing delimiter. -/

def lazyContentGo (close : Char) (acc : List Char) : List Char → Option (List Char × List Char)
  | [] => none
  | c :: rest =>
    if c = close then some (acc.reverse, rest)
    else if c = '\n' then none
    else lazyContentGo close (c :: acc) rest

/-- Lazy `(.+?)` up to `close`: the first content character is unconditional
(the group needs at least one character), then the first closing delimiter
ends the match. -/
def lazyContent (close : Char) : List Char → Option (List Char × List Char)
  | [] => none
  | c :: rest => if c = '\n' then none else lazyContentGo close [c] rest

/-- `re.findall` of the dollar-parenthesis form: scan for `$(`, take the lazy
content up to the first viable `)`, continue after the match (or one character
further on failure, as the regex engine advances its start position).
Every step consumes at least one character, so `fuel = length` suffices. -/
def findDollarSubsFuel : Nat → List Char → List (List Char)
  | 0, _ => []
  | fuel + 1, cs =>
    match cs with
    | [] => []
    | '$' :: '(' :: rest =>
      match lazyContent ')' rest with
      | some (content, after) => content :: findDollarSubsFuel fuel after
      | none => findDollarSubsFuel fuel ('(' :: rest)
    | _ :: rest => findDollarSubsFuel fuel rest

/-- `re.findall` of the backtick form. -/
def findBtickSubsFuel : Nat → List Char → List (List Char)
  | 0, _ => []
  | fuel + 1, cs =>
    match cs with
    | [] => []
    | c :: rest =>
      if c = btick then
        match lazyContent btick rest with
        | some (content, after) => content :: findBtickSubsFuel fuel after
        | none => findBtickSubsFuel fuel rest
      else findBtickSubsFuel fuel rest

def subcommandsOf (command : String) : List String :=
  (findDollarSubsFuel command.data.length command.data ++
    findBtickSubsFuel command.data.length command.data).map fun cs => ⟨cs⟩

/-! ### terminal.py — `check_command_safety`, `_confirm_or_block`, `run_command`

`search` stands for `_DANGEROUS_RE.search`, returning `match.group()` when the
destructive-pattern regex matches. -/

/-- The per-segment body of the loop in `check_command_safety`: strip, skip
empty, check raw then (when changed) normalized. -/
def checkSegment (search : String → Option String) (segment : String) : Option String :=
  let seg := pyStrip segment
  if seg = "" then none
  else
    match search seg with
    | some m => some ("Potentially destructive pattern in chained command: " ++ m)
    | none =>
      let norm := normalize_command seg
      if norm ≠ seg then
        match search norm with
        | some m =>
          some ("Potentially destructive pattern in chained command (obfuscated): " ++ m)
        | none => none
      else none

/-- `check_command_safety`: raw, then normalized (when it differs), then each
`;`/`|`/`&&`/`||`-separated segment, then each `$(...)`/backtick subcommand. -/
def check_command_safety (search : String → Option String) (command : String) :
    Option String :=
  match search command with
  | some m => some ("Potentially destructive pattern detected: " ++ m)
  | none =>
    let normalized := normalize_command command
    match (if normalized ≠ command then search normalized else none) with
    | some m => some ("Potentially destructive pattern detected (obfuscated): " ++ m)
    | none =>
      match (segmentsOf command).findSome? (checkSegment search) with
      | some msg => some msg
      | none =>
        match (subcommandsOf command).findSome? search with
        | some m => some ("Potentially destructive pattern in subcommand: " ++ m)
        | none => none

/-- `_confirm_or_block`: with no callback configured, block by default. -/
def confirm_or_block (callback : Option (String → String → Bool))
    (command warning : String) : Option String :=
  match callback with
  | some cb =>
    if cb command warning then none
    else some ("Command blocked by user: " ++ command)
  | none => some ("Blocked: " ++ warning ++ ". Command: " ++ command)

/-- Outcome of `subprocess.run` for a given command (the environment). -/
structure CompletedProcess where
  stdout : String
  stderr : String
  returncode : Int

inductive ExecBehavior where
  | completes (result : CompletedProcess)
  | timesOut
  | raises (msg : String)

/-- `output[:5000] + "\n\n... (truncated) ...\n\n" + output[-3000:]`. -/
def truncateLong (s : String) : String :=
  ⟨s.data.take 5000⟩ ++ "\n\n... (truncated) ...\n\n" ++ ⟨s.data.drop (s.data.length - 3000)⟩

/-- Assemble stdout/stderr/exit-code parts, strip, truncate when long, and
fall back to "(no output)". -/
def buildOutput (r : CompletedProcess) : String :=
  let parts :=
    (if r.stdout ≠ "" then [r.stdout] else []) ++
    (if r.stderr ≠ "" then ["[stderr]\n" ++ r.stderr] else []) ++
    (if r.returncode ≠ 0 then ["[exit code: " ++ toString r.returncode ++ "]"] else [])
  let output := pyStrip (String.intercalate "\n" parts)
  let output := if output.length > 10000 then truncateLong output else output
  if output ≠ "" then output else "(no output)"

/-- Result of `run_command`, together with whether a subprocess was started. -/
structure RunOutcome where
  output : String
  ran : Bool
deriving DecidableEq

/-- The subprocess-running tail of `run_command` (the part after the safety
gate), including the timeout and generic exception handlers. -/
def runExec (exec : String → ExecBehavior) (command : String) (timeout : Nat) :
    RunOutcome :=
  match exec command with
  | .completes r => ⟨buildOutput r, true⟩
  | .timesOut =>
    ⟨"Error: Command timed out after " ++ toString timeout ++ "s: " ++ command, true⟩
  | .raises msg => ⟨"Error running command: " ++ msg, true⟩

/-- `run_command`: safety check, confirm-or-block, then the subprocess. -/
def run_command (search : String → Option String)
    (callback : Option (String → String → Bool))
    (exec : String → ExecBehavior) (command : String) (timeout : Nat := 60) :
    RunOutcome :=
  match check_command_safety search command with
  | some warning =>
    match confirm_or_block callback command warning with
    | some blocked => ⟨blocked, false⟩
    | none => runExec exec command timeout
  | none => runExec exec command timeout

/-- **C1.** For every command string `c` that matches a destructive-intent
pattern — as established by `check_command_safety`, which checks the raw
string, the normalized form (collapsing `${IFS}`, backslashes and intra-token
quotes), every `;`/`|`/`&&`/`||`-separated segment, and every `$(...)` or
backtick subcommand — if no confirmation callback is set, `run_command c`
returns a blocked string beginning with `Blocked:` and never starts a
subprocess. -/
theorem run_command_blocks_destructive
    (search : String → Option String) (exec : String → ExecBehavior)
    (command w : String) (timeout : Nat)
    (h : check_command_safety search command = some w) :
    run_command search none exec command timeout =
      ⟨"Blocked: " ++ w ++ ". Command: " ++ command, false⟩ ∧
    (∃ rest, (run_command search none exec command timeout).output =
      "Blocked:" ++ rest) ∧
    (run_command search none exec command timeout).ran = false := by
  have hrun : run_command search none exec command timeout =
      ⟨"Blocked: " ++ w ++ ". Command: " ++ command, false⟩ := by
    unfold run_command
    rw [h]
    rfl
  refine ⟨hrun, ⟨" " ++ w ++ ". Command: " ++ command, ?_⟩, by rw [hrun]⟩
  rw [hrun]
  simp [String.append_assoc]
  rfl

/-- Substring containment on character lists. -/
def containsSub (needle : List Char) : List Char → Bool
  | [] => needle.isPrefixOf ([] : List Char)
  | c :: rest => needle.isPrefixOf (c :: rest) || containsSub needle rest

/-- A concrete stand-in for one destructive pattern: substring search for
`rm -rf` (an instance of the `rm -[..]f/r` pattern family). -/
def demoSearch (s : String) : Option String :=
  if containsSub "rm -rf".data s.data then some "rm -rf" else none

def demoExec : String → ExecBehavior := fun _ => .completes ⟨"", "", 0⟩

/-- Witness for C1: the obfuscated command `rm${IFS}-rf /tmp/victim` does not
match raw, matches after normalization, and is blocked without a subprocess. -/
theorem run_command_blocks_destructive_witness :
    check_command_safety demoSearch "rm$\x7bIFS\x7d-rf /tmp/victim" =
      some "Potentially destructive pattern detected (obfuscated): rm -rf" ∧
    (run_command demoSearch none demoExec "rm$\x7bIFS\x7d-rf /tmp/victim" 60).ran
      = false := by
  have h : check_command_safety demoSearch "rm$\x7bIFS\x7d-rf /tmp/victim" =
      some "Potentially destructive pattern detected (obfuscated): rm -rf" := by decide
  exact ⟨h, (run_command_blocks_destructive demoSearch demoExec _ _ 60 h).2.2⟩

/-! ## security.py — URL / SSRF validation

The address model covers IPv4 (dotted-quad literals and DNS results); the
`ipaddress` range predicates below are the IPv4 ranges of the Python standard
library. DNS (`socket.getaddrinfo`) is a parameter
`dns : String → Option (List Ipv4)`, where `none` models a `socket.gaierror`
(resolution failure) and `some ips` the resolved addresses. -/

structure Ipv4 where
  a : Nat
  b : Nat
  c : Nat
  d : Nat
deriving DecidableEq

/-- `IPv4Address.is_loopback`: 127.0.0.0/8. -/
def ipv4_loopback (ip : Ipv4) : Bool := ip.a = 127

/-- `IPv4Address.is_link_local`: 169.254.0.0/16. -/
def ipv4_link_local (ip : Ipv4) : Bool := ip.a = 169 && ip.b = 254

/-- `IPv4Address.is_multicast`: 224.0.0.0/4. -/
def ipv4_multicast (ip : Ipv4) : Bool := 224 ≤ ip.a && ip.a ≤ 239

/-- `IPv4Address.is_reserved`: 240.0.0.0/4. -/
def ipv4_reserved (ip : Ipv4) : Bool := 240 ≤ ip.a

/-- `IPv4Address.is_private`: the stdlib's private-network list. -/
def ipv4_private (ip : Ipv4) : Bool :=
  ip.a = 0 ||                                            -- 0.0.0.0/8
  ip.a = 10 ||                                           -- 10.0.0.0/8
  ip.a = 127 ||                                          -- 127.0.0.0/8
  (ip.a = 169 && ip.b = 254) ||                          -- 169.254.0.0/16
  (ip.a = 172 && 16 ≤ ip.b && ip.b ≤ 31) ||              -- 172.16.0.0/12
  (ip.a = 192 && ip.b = 0 && ip.c = 0 && ip.d ≤ 7) ||    -- 192.0.0.0/29
  (ip.a = 192 && ip.b = 0 && ip.c = 0 &&
    (ip.d = 170 || ip.d = 171)) ||                       -- 192.0.0.170/31
  (ip.a = 192 && ip.b = 0 && ip.c = 2) ||                -- 192.0.2.0/24
  (ip.a = 192 && ip.b = 168) ||                          -- 192.168.0.0/16
  (ip.a = 198 && (ip.b = 18 || ip.b = 19)) ||            -- 198.18.0.0/15
  (ip.a = 198 && ip.b = 51 && ip.c = 100) ||             -- 198.51.100.0/24
  (ip.a = 203 && ip.b = 0 && ip.c = 113) ||              -- 203.0.113.0/24
  240 ≤ ip.a                                             -- 240.0.0.0/4 (incl. broadcast)

/-- `_is_dangerous_addr`: private, loopback, link-local, reserved or
multicast. -/
def is_dangerous_addr (ip : Ipv4) : Bool :=
  ipv4_private ip || ipv4_loopback ip || ipv4_link_local ip ||
  ipv4_reserved ip || ipv4_multicast ip

/-- One decimal octet as accepted by `ipaddress.ip_address`: non-empty,
digits only, no leading zeros, at most 255. -/
def parseOctet (cs : List Char) : Option Nat :=
  if cs = [] then none
  else if !cs.all Char.isDigit then none
  else if cs.length > 1 && cs.head? = some '0' then none
  else
    let n := cs.foldl (fun acc c => acc * 10 + (c.toNat - 48)) 0
    if n ≤ 255 then some n else none

/-- `str.split` on a dot. -/
def splitDotAux : List Char → List Char → List (List Char)
  | [], acc => [acc.reverse]
  | '.' :: rest, acc => acc.reverse :: splitDotAux rest []
  | c :: rest, acc => splitDotAux rest (c :: acc)

/-- `ipaddress.ip_address` restricted to IPv4 dotted-quad literals. -/
def parse_ipv4 (host : String) : Option Ipv4 :=
  match (splitDotAux host.data []).map parseOctet with
  | [some a, some b, some c, some d] => some ⟨a, b, c, d⟩
  | _ => none

/-- ASCII `str.lower()`. -/
def strLower (s : String) : String := ⟨s.data.map Char.toLower⟩

def localhostAliases : List String :=
  ["localhost", "localhost.localdomain", "ip6-localhost", "ip6-loopback"]

/-- `_METADATA_HOSTS`. -/
def metadataHosts : List String :=
  ["169.254.169.254", "metadata.google.internal", "metadata.google",
    "100.100.100.200"]

/-- `_is_private_ip`: localhost aliases, then an IP-literal check, then DNS
resolution; a failed lookup (`socket.gaierror`) falls through to `false`. -/
def is_private_ip (dns : String → Option (List Ipv4)) (hostname : String) : Bool :=
  let lower := strLower hostname
  if localhostAliases.contains lower then true
  else
    match parse_ipv4 hostname with
    | some addr => is_dangerous_addr addr
    | none =>
      match dns hostname with
      | some results => results.any is_dangerous_addr
      | none => false

/-- A parsed URL (`urlparse` output restricted to the fields the validator
reads, plus the path for redirect resolution). -/
structure Url where
  scheme : String
  hostname : String
  port : Option Nat
  path : String
deriving DecidableEq

def allowedSchemes : List String := ["http", "https"]

def blockedPorts : List Nat :=
  [22, 23, 25, 2379, 3306, 5432, 6379, 9200, 11211, 27017]

/-- `validate_url`: scheme, hostname presence, metadata hosts, private or
rebinding addresses, and well-known internal-service ports. -/
def validate_url (dns : String → Option (List Ipv4)) (url : Url)
    (allow_private : Bool := false) : Option String :=
  let scheme := strLower url.scheme
  if !allowedSchemes.contains scheme then
    some ("URL scheme '" ++ scheme ++ "' is not allowed. Use http:// or https://.")
  else
    let hostname := strLower url.hostname
    if hostname = "" then some "URL has no hostname."
    else if metadataHosts.contains hostname then
      some ("Access to cloud metadata endpoint '" ++ hostname ++ "' is blocked.")
    else if !allow_private && is_private_ip dns hostname then
      some ("Access to private/local address '" ++ hostname ++ "' is blocked.")
    else
      match url.port with
      | some port =>
        if port ≠ 0 && !allow_private && blockedPorts.contains port then
          some ("Access to port " ++ toString port ++
            " is blocked (common internal service port).")
        else none
      | none => none

/-! ## web.py — `fetch_url`

The HTTP layer is a parameter `server : Url → HttpResponse`. `fetch_url`
returns the produced text together with the trace of URLs actually requested,
so "no request is emitted" is the statement that the trace is empty. The
HTML-stripping of successful response bodies is not modelled (it only rewrites
the returned text of an already-validated fetch). -/

/-- The string in a `Location` header, as later consumed by `urlparse`:
an absolute URL, a root-relative path (leading slash), or anything else
(which parses with an empty scheme and is then rejected by the scheme
check). -/
inductive RedirectLoc where
  | absolute (u : Url)
  | rootRelative (path : String)
  | otherRelative (s : String)

structure HttpResponse where
  status : Nat
  location : Option RedirectLoc   -- `none` models a missing or empty header
  body : String

/-- Resolution of a redirect target against the current URL. -/
def resolveRedirect (current : Url) : RedirectLoc → Url
  | .absolute u => u
  | .rootRelative p => ⟨current.scheme, current.hostname, current.port, p⟩
  | .otherRelative s => ⟨"", "", none, s⟩

def redirectStatuses : List Nat := [301, 302, 303, 307, 308]

inductive LoopExit where
  | done (resp : HttpResponse)
  | blocked (err : String)

/-- The manual redirect loop of `fetch_url` (`for _ in range(5)`); `fuel` is
the number of requests still allowed and `prev` the response of the previous
iteration (what `resp` holds when the loop's range is exhausted). -/
def fetchGo (dns : String → Option (List Ipv4)) (server : Url → HttpResponse) :
    Nat → HttpResponse → Url → List Url → LoopExit × List Url
  | 0, prev, _, trace => (.done prev, trace)
  | fuel + 1, _, current, trace =>
    let resp := server current
    let trace := trace ++ [current]
    if redirectStatuses.contains resp.status then
      match resp.location with
      | none => (.done resp, trace)
      | some loc =>
        let r := resolveRedirect current loc
        match validate_url dns r with
        | some e => (.blocked e, trace)
        | none => fetchGo dns server fuel resp r trace
    else (.done resp, trace)

def urlText (u : Url) : String :=
  u.scheme ++ "://" ++ u.hostname ++
    (match u.port with | some p => ":" ++ toString p | none => "") ++ u.path

/-- `fetch_url`: validate, then at most five manual requests, re-validating
every redirect target; any non-success end state becomes the generic fetch
error. -/
def fetch_url (dns : String → Option (List Ipv4)) (server : Url → HttpResponse)
    (url : Url) (max_length : Nat := 5000) : String × List Url :=
  match validate_url dns url with
  | some e => ("Error: " ++ e, [])
  | none =>
    match fetchGo dns server 5 ⟨0, none, ""⟩ url [] with
    | (.blocked e, trace) => ("Error: Redirect blocked — " ++ e, trace)
    | (.done resp, trace) =>
      if 200 ≤ resp.status && resp.status < 300 then
        let text :=
          if resp.body.length > max_length
          then ⟨resp.body.data.take max_length⟩ ++ "\n... (truncated)"
          else resp.body
        ("Content from " ++ urlText url ++ ":\n\n" ++ text, trace)
      else
        ("Error fetching " ++ urlText url ++
          ". Check that the URL is valid and reachable.", trace)

/-- A hostname that is a metadata endpoint or that `_is_private_ip` flags
always fails validation (whatever the scheme or port). -/
theorem validate_url_some_of_bad {dns : String → Option (List Ipv4)} {url : Url}
    (h : strLower url.hostname ∈ metadataHosts ∨
      is_private_ip dns (strLower url.hostname) = true) :
    ∃ e, validate_url dns url = some e := by
  unfold validate_url
  by_cases h1 : strLower url.scheme ∈ allowedSchemes
  · by_cases h2 : strLower url.hostname = ""
    · simp [h1, h2]
    · by_cases h3 : strLower url.hostname ∈ metadataHosts
      · simp [h1, h2, h3]
      · have h4 : is_private_ip dns (strLower url.hostname) = true := by
          rcases h with h | h
          · exact absurd h h3
          · exact h
        simp [h1, h2, h3, h4]
  · simp [h1]

/-- Every URL the redirect loop requests has passed `validate_url`. -/
theorem fetchGo_trace_validated (dns : String → Option (List Ipv4))
    (server : Url → HttpResponse) :
    ∀ (fuel : Nat) (prev : HttpResponse) (current : Url) (trace : List Url),
      validate_url dns current = none →
      (∀ r ∈ trace, validate_url dns r = none) →
      ∀ r ∈ (fetchGo dns server fuel prev current trace).2,
        validate_url dns r = none := by
  intro fuel
  induction fuel with
  | zero => intro prev current trace _ htrace r hr; exact htrace r hr
  | succ fuel ih =>
    intro prev current trace hcur htrace r hr
    have htrace' : ∀ r ∈ trace ++ [current], validate_url dns r = none := by
      intro r hr
      rcases List.mem_append.mp hr with h | h
      · exact htrace r h
      · rw [List.mem_singleton.mp h]; exact hcur
    simp only [fetchGo] at hr
    split_ifs at hr with hred
    · rcases hloc : (server current).location with _ | loc
      · rw [hloc] at hr; exact htrace' r hr
      · rw [hloc] at hr
        dsimp only at hr
        rcases hval : validate_url dns (resolveRedirect current loc) with _ | e
        · rw [hval] at hr
          dsimp only at hr
          exact ih _ _ _ hval htrace' r hr
        · rw [hval] at hr
          dsimp only at hr
          exact htrace' r hr
    · exact htrace' r hr

/-- The redirect loop makes at most `fuel` requests. -/
theorem fetchGo_trace_length (dns : String → Option (List Ipv4))
    (server : Url → HttpResponse) :
    ∀ (fuel : Nat) (prev : HttpResponse) (current : Url) (trace : List Url),
      (fetchGo dns server fuel prev current trace).2.length ≤ trace.length + fuel := by
  intro fuel
  induction fuel with
  | zero => intro prev current trace; simp [fetchGo]
  | succ fuel ih =>
    intro prev current trace
    simp only [fetchGo]
    split_ifs with hred
    · rcases hloc : (server current).location with _ | loc
      · dsimp only
        simp only [List.length_append, List.length_singleton]
        omega
      · dsimp only
        rcases hval : validate_url dns (resolveRedirect current loc) with _ | e
        · dsimp only
          have := ih (server current) (resolveRedirect current loc) (trace ++ [current])
          simp only [List.length_append, List.length_singleton] at this
          omega
        · dsimp only
          simp only [List.length_append, List.length_singleton]
          omega
    · dsimp only
      simp only [List.length_append, List.length_singleton]
      omega

/-- **C2.** For every URL whose hostname is a cloud-metadata host, a localhost
alias, or resolves (as an IPv4 literal or by DNS) to a private, loopback,
link-local, reserved, or multicast address, `fetch_url` returns an error
string without emitting any HTTP request; moreover every URL actually
requested during a fetch has been re-validated by `validate_url`, and at most
5 requests (hence at most 5 redirect hops) are ever made. -/
theorem fetch_url_ssrf_guard (dns : String → Option (List Ipv4))
    (server : Url → HttpResponse) (url : Url) :
    ((strLower url.hostname ∈ metadataHosts ∨
        is_private_ip dns (strLower url.hostname) = true) →
      (fetch_url dns server url).2 = [] ∧
      ∃ e, fetch_url dns server url = ("Error: " ++ e, [])) ∧
    (∀ r ∈ (fetch_url dns server url).2, validate_url dns r = none) ∧
    (fetch_url dns server url).2.length ≤ 5 := by
  refine ⟨?_, ?_, ?_⟩
  · intro hbad
    obtain ⟨e, he⟩ := validate_url_some_of_bad hbad
    unfold fetch_url
    rw [he]
    exact ⟨rfl, e, rfl⟩
  · intro r hr
    unfold fetch_url at hr
    rcases hv : validate_url dns url with _ | e
    · rw [hv] at hr
      rcases hgo : fetchGo dns server 5 ⟨0, none, ""⟩ url [] with ⟨exit, trace⟩
      rw [hgo] at hr
      have hmem : r ∈ trace := by
        cases exit with
        | done resp =>
          by_cases hok : 200 ≤ resp.status && resp.status < 300 <;>
            simp only [hok, if_true, if_false] at hr <;> exact hr
        | blocked e => exact hr
      have := fetchGo_trace_validated dns server 5 ⟨0, none, ""⟩ url [] hv
        (by intro r hr; cases hr)
      rw [hgo] at this
      exact this r hmem
    · rw [hv] at hr
      cases hr
  · unfold fetch_url
    rcases hv : validate_url dns url with _ | e
    · rcases hgo : fetchGo dns server 5 ⟨0, none, ""⟩ url [] with ⟨exit, trace⟩
      have := fetchGo_trace_length dns server 5 ⟨0, none, ""⟩ url []
      rw [hgo] at this
      simp only [List.length_nil, Nat.zero_add] at this
      cases exit with
      | done resp =>
        by_cases hok : 200 ≤ resp.status && resp.status < 300 <;> simp [hok] <;> omega
      | blocked e => simpa using this
    · simp

/-- Environment for the C2 witness: nothing resolves in DNS, and
`public.example.com` answers with a 302 redirect into the AWS metadata
endpoint. -/
def dns0 : String → Option (List Ipv4) := fun _ => none

def metaUrl : Url := ⟨"http", "169.254.169.254", none, "/latest/"⟩

def pubUrl : Url := ⟨"http", "public.example.com", none, "/"⟩

def server0 : Url → HttpResponse := fun u =>
  if u.hostname = "public.example.com" then
    ⟨302, some (.absolute metaUrl), ""⟩
  else ⟨200, none, "ok"⟩

/-- Witness for C2: a direct metadata fetch performs no request at all, and
the redirect-to-metadata fetch performs exactly the one initial request and
reports the blocked redirect. -/
theorem fetch_url_ssrf_guard_witness :
    (fetch_url dns0 server0 metaUrl).2 = [] ∧
    (∃ e, fetch_url dns0 server0 metaUrl = ("Error: " ++ e, [])) ∧
    fetch_url dns0 server0 pubUrl =
      ("Error: Redirect blocked — Access to cloud metadata endpoint " ++
        "'169.254.169.254' is blocked.", [pubUrl]) := by
  have h := (fetch_url_ssrf_guard dns0 server0 metaUrl).1 (Or.inl (by decide))
  exact ⟨h.1, h.2, by decide⟩

/-- **C10 (amended).** A URL with an http(s) scheme, a non-empty hostname that
is not an IPv4 literal, not a localhost alias and not a metadata host, no
blocked port, and whose DNS resolution fails with a lookup error, passes
`validate_url`: a non-resolving hostname is accepted rather than rejected.
The hostname is assumed already lowercase, as `urlparse` guarantees. -/
theorem validate_url_accepts_unresolvable (dns : String → Option (List Ipv4))
    (url : Url)
    (hlow : strLower url.hostname = url.hostname)
    (hscheme : strLower url.scheme = "http" ∨ strLower url.scheme = "https")
    (hhost : url.hostname ≠ "")
    (hmeta : url.hostname ∉ metadataHosts)
    (halias : url.hostname ∉ localhostAliases)
    (hlit : parse_ipv4 url.hostname = none)
    (hdns : dns url.hostname = none)
    (hport : ∀ p, url.port = some p → p ∉ blockedPorts) :
    validate_url dns url = none := by
  have hpriv : is_private_ip dns url.hostname = false := by
    simp [is_private_ip, hlow, halias, hlit, hdns]
  have hsch : strLower url.scheme ∈ allowedSchemes := by
    rcases hscheme with h | h <;> rw [h] <;> decide
  rcases hp : url.port with _ | p
  · simp [validate_url, hsch, hlow, hhost, hmeta, hpriv, hp]
  · simp [validate_url, hsch, hlow, hhost, hmeta, hpriv, hp, hport p hp]

/-- Witness for C10: `resolves-nowhere.example` with no port is accepted. -/
theorem validate_url_accepts_unresolvable_witness :
    validate_url dns0 ⟨"http", "resolves-nowhere.example", none, "/"⟩ = none := by
  exact validate_url_accepts_unresolvable dns0 _ (by decide) (Or.inl (by decide))
    (by decide) (by decide) (by decide) (by decide) rfl
    (fun p hp => by cases hp)

/-- **C10, counterexample to the claim as stated.** Two URLs satisfy the
claim's hypotheses (http scheme, hostname neither an IP literal nor a
localhost alias nor a metadata host, DNS lookup fails) yet are rejected:
one because its port (22) is on the blocked internal-service port list, one
because its hostname is empty. -/
theorem validate_url_unresolvable_counterexample :
    (parse_ipv4 "resolves-nowhere.example" = none ∧
      "resolves-nowhere.example" ∉ localhostAliases ∧
      "resolves-nowhere.example" ∉ metadataHosts ∧
      dns0 "resolves-nowhere.example" = none ∧
      validate_url dns0 ⟨"http", "resolves-nowhere.example", some 22, "/"⟩ =
        some "Access to port 22 is blocked (common internal service port).") ∧
    (dns0 "" = none ∧
      validate_url dns0 ⟨"http", "", some 8080, "/"⟩ = some "URL has no hostname.") := by
  exact ⟨⟨by decide, by decide, by decide, rfl, by decide⟩, ⟨rfl, by decide⟩⟩

/-! ## Conversation messages (shared by agent/core.py and agent/compactor.py)

A message is a dict with a `role`, a `content` that is either a plain string
or a list of content blocks, an optional OpenAI-style `tool_calls` list
(empty = key absent, matching Python truthiness), and an optional
`tool_call_id` (OpenAI tool-result messages). Tool-call arguments are an
opaque type `α` (the Python dict is only ever passed through). -/

structure ToolCall (α : Type) where
  id : String
  name : String
  arguments : α
deriving DecidableEq

inductive Block (α : Type) where
  | text (s : String)
  | image
  | tool_use (id : String) (name : String) (input : α)
  | tool_result (tool_use_id : String) (content : String)
  | other
deriving DecidableEq

inductive Content (α : Type) where
  | str (s : String)
  | blocks (bs : List (Block α))
deriving DecidableEq

structure Message (α : Type) where
  role : String
  content : Content α
  tool_calls : List (ToolCall α) := []
  tool_call_id : Option String := none
deriving DecidableEq

def defaultMessage {α : Type} : Message α := ⟨"", .str "", [], none⟩

/-! ## compactor.py — token estimation and window resolution -/

def MODEL_CONTEXT_WINDOWS : List (String × Nat) :=
  [("gpt-4o", 128000), ("gpt-4o-mini", 128000), ("gpt-4-turbo", 128000),
   ("gpt-4", 8192), ("o1", 200000), ("o1-mini", 128000), ("o3", 200000),
   ("o3-mini", 128000),
   ("claude-sonnet-4-5-20250929", 200000), ("claude-opus-4-5-20250929", 200000),
   ("claude-3-5-sonnet-20241022", 200000), ("claude-3-5-haiku-20241022", 200000),
   ("gemini-2.5-flash", 1048576), ("gemini-2.5-pro", 1048576),
   ("gemini-2.0-flash", 1048576),
   ("llama3.1", 128000), ("llama3.2", 128000), ("mistral", 32000),
   ("mixtral", 32000), ("codellama", 16000), ("phi3", 128000), ("qwen2", 32000)]

def DEFAULT_CONTEXT_WINDOW : Nat := 128000

/-- `pre` is a prefix of `s` (Python `str.startswith`). -/
def pyStartsWith (pre s : String) : Bool := pre.data.isPrefixOf s.data

structure CompactorConfig where
  threshold : ℚ := mkRat 3 4    -- 0.75 (exact in binary floating point)
  keep_recent : Nat := 10
  model_name : String := ""
  context_window : Nat := 0

/-- `_resolve_context_window`: override, exact table match, prefix match,
default. `provider_model` models `getattr(self.provider, "model", "")`. -/
def resolve_context_window (cfg : CompactorConfig) (provider_model : String) : Nat :=
  if cfg.context_window > 0 then cfg.context_window
  else
    let model := if cfg.model_name ≠ "" then cfg.model_name else provider_model
    match MODEL_CONTEXT_WINDOWS.find? (fun p => p.1 = model) with
    | some p => p.2
    | none =>
      match MODEL_CONTEXT_WINDOWS.find? (fun p => pyStartsWith p.1 model) with
      | some p => p.2
      | none => DEFAULT_CONTEXT_WINDOW

/-- Character weight of one content block in `estimate_tokens`. -/
def blockChars {α : Type} : Block α → Nat
  | .text s => s.length
  | .tool_result _ content => content.length
  | .image => 4000
  | _ => 0

/-- Character weight of one message (content plus framing overhead). -/
def msgChars {α : Type} (m : Message α) : Nat :=
  (match m.content with
   | .str s => s.length
   | .blocks bs => (bs.map blockChars).sum) + m.role.length + 4

/-- `estimate_tokens`: one token per four characters. -/
def estimate_tokens {α : Type} (msgs : List (Message α)) : Nat :=
  ((msgs.map msgChars).sum) / 4

/-- `int(window * threshold)` for a nonnegative rational threshold:
`window * threshold = (window * num) / den`, truncated. -/
def thresholdCutoff (window : Nat) (th : ℚ) : Nat :=
  (window * th.num.toNat) / th.den

/-- `needs_compaction`. -/
def needs_compaction {α : Type} (cfg : CompactorConfig) (window : Nat)
    (history : List (Message α)) : Bool :=
  if history.length ≤ cfg.keep_recent then false
  else estimate_tokens history > thresholdCutoff window cfg.threshold

/-! ## compactor.py — safe split point and compaction -/

def has_tool_use_block {α : Type} (m : Message α) : Bool :=
  match m.content with
  | .blocks bs => bs.any (fun b => match b with | .tool_use _ _ _ => true | _ => false)
  | _ => false

def has_tool_result_block {α : Type} (m : Message α) : Bool :=
  match m.content with
  | .blocks bs => bs.any (fun b => match b with | .tool_result _ _ => true | _ => false)
  | _ => false

/-- The walk condition of `_safe_split_point`: an assistant message carrying
tool calls (content blocks or a `tool_calls` key), a `tool`-role message, or a
user message whose content list holds a `tool_result` block. -/
def blocksSplit {α : Type} (m : Message α) : Bool :=
  (m.role = "assistant" && (has_tool_use_block m || !m.tool_calls.isEmpty)) ||
  m.role = "tool" ||
  (m.role = "user" && has_tool_result_block m)

/-- `_safe_split_point`: walk the index backwards while the message there
would break a tool call/result pair. -/
def safe_split_point {α : Type} (history : List (Message α)) : Nat → Nat
  | 0 => 0
  | idx + 1 =>
    if blocksSplit (history.getD (idx + 1) defaultMessage)
    then safe_split_point history idx
    else idx + 1

/-- `"\n".join` and friends. -/
def joinWith (sep : String) : List String → String
  | [] => ""
  | [x] => x
  | x :: y :: xs => x ++ sep ++ joinWith sep (y :: xs)

/-- ASCII `str.upper()`. -/
def strUpper (s : String) : String := ⟨s.data.map Char.toUpper⟩

def summaryMarker : String := "[Summary of earlier conversation]"

/-- The lines `_format_for_summary` emits for one message. -/
def formatLines {α : Type} (m : Message α) : List String :=
  let role := strUpper (if m.role ≠ "" then m.role else "unknown")
  let contentLines : List String :=
    match m.content with
    | .str content =>
      if pyStartsWith summaryMarker content then
        ["[PREVIOUS SUMMARY]\n" ++ content ++ "\n"]
      else
        [role ++ ": " ++
          (if content.length > 2000 then ⟨content.data.take 2000⟩ ++ "..." else content)]
    | .blocks bs =>
      let parts := bs.filterMap (fun b =>
        match b with
        | .text s => some s
        | .tool_use _ name _ => some ("[called " ++ (if name ≠ "" then name else "?") ++ "]")
        | .tool_result _ content => some ("[result: " ++ ⟨content.data.take 500⟩ ++ "]")
        | _ => none)
      if parts ≠ [] then [role ++ ": " ++ joinWith " " parts] else []
  contentLines ++ m.tool_calls.map (fun tc => "  [called tool: " ++ tc.name ++ "]")

/-- `_format_for_summary`. -/
def format_for_summary {α : Type} (msgs : List (Message α)) : String :=
  joinWith "\n" (msgs.map formatLines).flatten

/-- The summarization prompt (`SUMMARIZATION_PROMPT.format`). -/
def buildPrompt (conversation : String) : String :=
  "Summarize the following conversation history into a concise digest.\n\n" ++
  "PRESERVE:\n- Key facts and data mentioned\n- Decisions made and their reasoning\n" ++
  "- File paths, URLs, commands used\n- Errors encountered and their resolutions\n" ++
  "- User preferences expressed\n- Task progress and status\n\n" ++
  "FORMAT:\n- Use bullet points\n- Group by topic/task\n" ++
  "- Be concise but don't lose critical details\n- Start with: \"" ++ summaryMarker ++
  "\"\n\nCONVERSATION TO SUMMARIZE:\n" ++ conversation

/-- `_summarize`: ask the provider (modelled as `raw`, `none` = exception),
strip, and prepend the marker when missing. -/
def summarize_call (raw : String → Option String) (conversation_text : String) :
    Option String :=
  match raw (buildPrompt conversation_text) with
  | none => none
  | some text =>
    let summary := pyStrip text
    some (if pyStartsWith summaryMarker summary then summary
          else summaryMarker ++ "\n" ++ summary)

/-- `ContextCompactor.compact` (with the context window already resolved). -/
def compact {α : Type} (cfg : CompactorConfig) (window : Nat)
    (raw : String → Option String) (history : List (Message α)) :
    List (Message α) :=
  if !needs_compaction cfg window history then history
  else
    let split := safe_split_point history (history.length - cfg.keep_recent)
    if split = 0 then history
    else
      let old_messages := history.take split
      let recent_messages := history.drop split
      match summarize_call raw (format_for_summary old_messages) with
      | none => recent_messages
      | some summary => ⟨"user", .str summary, [], none⟩ :: recent_messages

/-! ## The tool-pairing invariant (spec §3 data model) -/

/-- Ids of the tool uses a message carries (content blocks and the
OpenAI-style `tool_calls` key). -/
def useIds {α : Type} (m : Message α) : List String :=
  (match m.content with
   | .blocks bs =>
     bs.filterMap (fun b => match b with | .tool_use id _ _ => some id | _ => none)
   | _ => []) ++ m.tool_calls.map (·.id)

/-- Ids of the tool results a message carries (content blocks and the
OpenAI-style `tool_call_id` key). -/
def resIds {α : Type} (m : Message α) : List String :=
  (match m.content with
   | .blocks bs =>
     bs.filterMap (fun b => match b with | .tool_result id _ => some id | _ => none)
   | _ => []) ++ (match m.tool_call_id with | some i => [i] | none => [])

/-- Every `tool_use` is immediately answered: a message carrying tool uses is
followed, within the history, by a message whose tool-result ids cover them. -/
def wellPaired {α : Type} (H : List (Message α)) : Prop :=
  ∀ i, i < H.length → useIds (H.getD i defaultMessage) ≠ [] →
    i + 1 < H.length ∧
    ∀ id ∈ useIds (H.getD i defaultMessage), id ∈ resIds (H.getD (i + 1) defaultMessage)

theorem getD_drop {α : Type} (H : List (Message α)) (k i : Nat) :
    (H.drop k).getD i defaultMessage = H.getD (k + i) defaultMessage := by
  simp [List.getD_eq_getElem?_getD, List.getElem?_drop]

/-- Dropping a prefix preserves the pairing invariant. -/
theorem wellPaired_drop {α : Type} {H : List (Message α)} (hw : wellPaired H)
    (k : Nat) : wellPaired (H.drop k) := by
  intro i hi huse
  rw [List.length_drop] at hi
  rw [getD_drop] at huse
  have hki : k + i < H.length := by omega
  obtain ⟨hnext, hcov⟩ := hw (k + i) hki huse
  refine ⟨by rw [List.length_drop]; omega, ?_⟩
  rw [getD_drop, getD_drop]
  have : k + (i + 1) = k + i + 1 := by omega
  rw [this]
  exact hcov

/-- Prepending a message without tool uses preserves the pairing invariant. -/
theorem wellPaired_cons {α : Type} {m : Message α} {T : List (Message α)}
    (hm : useIds m = []) (hT : wellPaired T) : wellPaired (m :: T) := by
  intro i hi huse
  cases i with
  | zero =>
    rw [List.getD_cons_zero, hm] at huse
    exact absurd rfl huse
  | succ j =>
    rw [List.getD_cons_succ] at huse
    have hj : j < T.length := by simpa using hi
    obtain ⟨hn, hc⟩ := hT j hj huse
    refine ⟨by simpa using hn, ?_⟩
    rw [List.getD_cons_succ, List.getD_cons_succ]
    exact hc

/-- Behaviour of the `_safe_split_point` walk: the result never exceeds the
target, the message at the result does not block a split (unless the walk
reached 0), and every index it walked past does block a split. -/
theorem safe_split_point_spec {α : Type} (H : List (Message α)) (t : Nat) :
    safe_split_point H t ≤ t ∧
    (safe_split_point H t = 0 ∨
      blocksSplit (H.getD (safe_split_point H t) defaultMessage) = false) ∧
    (∀ j, safe_split_point H t < j → j ≤ t →
      blocksSplit (H.getD j defaultMessage) = true) := by
  induction t with
  | zero => exact ⟨Nat.le_refl 0, Or.inl rfl, fun j h1 h2 => by omega⟩
  | succ t ih =>
    by_cases hb : blocksSplit (H.getD (t + 1) defaultMessage) = true
    · have heq : safe_split_point H (t + 1) = safe_split_point H t := by
        simp only [safe_split_point]
        rw [if_pos hb]
      obtain ⟨ihle, ihstop, ihwalk⟩ := ih
      refine ⟨by omega, by rw [heq]; exact ihstop, ?_⟩
      intro j h1 h2
      rcases Nat.lt_or_ge j (t + 1) with hj | hj
      · exact ihwalk j (by omega) (by omega)
      · have : j = t + 1 := by omega
        rw [this]; exact hb
    · have heq : safe_split_point H (t + 1) = t + 1 := by
        simp only [safe_split_point]
        rw [if_neg hb]
      refine ⟨by omega, Or.inr ?_, ?_⟩
      · rw [heq]
        exact Bool.not_eq_true _ ▸ (by simpa using hb)
      · intro j h1 h2
        omega

/-- **C3.** For every history satisfying the data-model pairing invariant and
every compactor configuration, `compact` returns a history in which every
tool use is still immediately followed by its matching tool result — on the
summary path, on the summarization-failure path (`raw` returning `none`),
and on both no-op paths.  Moreover the split index never exceeds the target,
walks backwards exactly past messages that would break a pair (assistant
messages with tool calls, tool-result messages), and a walk that reaches
0 leaves the history unchanged. -/
theorem compact_preserves_tool_pairing {α : Type} (cfg : CompactorConfig)
    (window : Nat) (raw : String → Option String) (H : List (Message α))
    (hw : wellPaired H) :
    wellPaired (compact cfg window raw H) ∧
    safe_split_point H (H.length - cfg.keep_recent) ≤ H.length - cfg.keep_recent ∧
    (safe_split_point H (H.length - cfg.keep_recent) = 0 ∨
      blocksSplit (H.getD (safe_split_point H (H.length - cfg.keep_recent))
        defaultMessage) = false) ∧
    (∀ j, safe_split_point H (H.length - cfg.keep_recent) < j →
      j ≤ H.length - cfg.keep_recent →
      blocksSplit (H.getD j defaultMessage) = true) ∧
    (safe_split_point H (H.length - cfg.keep_recent) = 0 →
      compact cfg window raw H = H) := by
  obtain ⟨hle, hstop, hwalk⟩ :=
    safe_split_point_spec H (H.length - cfg.keep_recent)
  have hzero : safe_split_point H (H.length - cfg.keep_recent) = 0 →
      compact cfg window raw H = H := by
    intro h0
    unfold compact
    by_cases hneed : needs_compaction cfg window H
    · simp [hneed, h0]
    · simp [hneed]
  refine ⟨?_, hle, hstop, hwalk, hzero⟩
  unfold compact
  by_cases hneed : needs_compaction cfg window H
  · simp only [hneed, Bool.not_true, Bool.false_eq_true, if_false]
    by_cases h0 : safe_split_point H (H.length - cfg.keep_recent) = 0
    · simp [h0]; exact hw
    · simp only [h0, if_false]
      rcases hsum : summarize_call raw
          (format_for_summary (H.take
            (safe_split_point H (H.length - cfg.keep_recent)))) with _ | summary
      · exact wellPaired_drop hw _
      · exact wellPaired_cons rfl (wellPaired_drop hw _)
  · simp only [hneed, Bool.not_false, if_true]
    exact hw

/-- The five-message history of spec scenario 2: `[user, assistant+tool_use,
tool_result, assistant, user]`. -/
def wHist : List (Message Unit) :=
  [⟨"user", .str "please check the time", [], none⟩,
   ⟨"assistant", .blocks [.text "checking", .tool_use "c1" "get_time" ()], [], none⟩,
   ⟨"user", .blocks [.tool_result "c1" "15:00"], [], none⟩,
   ⟨"assistant", .str "The time is 15:00.", [], none⟩,
   ⟨"user", .str "thanks", [], none⟩]

def wCfg : CompactorConfig := { keep_recent := 3 }

/-- Witness for C3 (spec scenario 2): with `keep_recent = 3` and a tiny
window the split target is 2, the walk passes the tool-result at 2 and the
tool-carrying assistant at 1 down to 0, compaction is a no-op, and the
pairing invariant holds of the result. -/
theorem compact_preserves_tool_pairing_witness :
    needs_compaction wCfg 1 wHist = true ∧
    safe_split_point wHist (wHist.length - wCfg.keep_recent) = 0 ∧
    compact wCfg 1 (fun _ => none) wHist = wHist ∧
    wellPaired (compact wCfg 1 (fun _ => none) wHist) := by
  have hw : wellPaired wHist := by unfold wellPaired; decide
  have h := compact_preserves_tool_pairing wCfg 1 (fun _ => none) wHist hw
  have h0 : safe_split_point wHist (wHist.length - wCfg.keep_recent) = 0 := by decide
  exact ⟨by decide, h0, h.2.2.2.2 h0, h.1⟩

/-! ## core.py — tool dispatch and the tool-calling loop

A tool handler models the registered Python callable: it may raise (an
exception with a type name and message), return `None`, or return a value
whose `str()` is the given string. The provider is a function from the
working message list to a normalized LLM response; `json.dumps` of tool
arguments is the parameter `dumps`. -/

structure PyExn where
  type_name : String
  message : String
deriving DecidableEq

def Handler (α : Type) : Type := α → Except PyExn (Option String)

/-- `Agent._execute_tool`. -/
def execute_tool {α : Type} (tools : List (String × Handler α)) (tc : ToolCall α) :
    String :=
  match tools.find? (fun p => p.1 = tc.name) with
  | none => "Error: Unknown tool '" ++ tc.name ++ "'"
  | some p =>
    match p.2 tc.arguments with
    | .error e =>
      "Tool '" ++ tc.name ++ "' failed: " ++ e.type_name ++ ": " ++ e.message
    | .ok none => "Done."
    | .ok (some s) => s

/-- Did the dispatched handler raise? -/
def tool_raised {α : Type} (tools : List (String × Handler α)) (tc : ToolCall α) :
    Bool :=
  match tools.find? (fun p => p.1 = tc.name) with
  | none => false
  | some p => match p.2 tc.arguments with | .error _ => true | _ => false

/-- **C7.** Tool dispatch always returns a string and never raises: an
unregistered name yields `Error: Unknown tool '<name>'`, a raising handler
yields `Tool '<name>' failed: <type>: <message>`, and a handler returning
`None` yields the non-empty string `Done.`. -/
theorem execute_tool_never_raises {α : Type} (tools : List (String × Handler α))
    (tc : ToolCall α) :
    (tools.find? (fun p => p.1 = tc.name) = none →
      execute_tool tools tc = "Error: Unknown tool '" ++ tc.name ++ "'") ∧
    (∀ p, tools.find? (fun p => p.1 = tc.name) = some p →
      (∀ e, p.2 tc.arguments = .error e →
        execute_tool tools tc =
          "Tool '" ++ tc.name ++ "' failed: " ++ e.type_name ++ ": " ++ e.message) ∧
      (p.2 tc.arguments = .ok none →
        execute_tool tools tc = "Done." ∧ execute_tool tools tc ≠ "")) := by
  refine ⟨?_, ?_⟩
  · intro h
    unfold execute_tool
    rw [h]
  · intro p hp
    refine ⟨?_, ?_⟩
    · intro e he
      unfold execute_tool
      rw [hp]
      dsimp only
      rw [he]
    · intro hnone
      unfold execute_tool
      rw [hp]
      dsimp only
      rw [hnone]
      dsimp only
      exact ⟨rfl, by decide⟩

/-- A concrete tool table for the C7 witness. -/
def demoTools : List (String × Handler Unit) :=
  [("ok_tool", fun _ => .ok (some "fine")),
   ("none_tool", fun _ => .ok none),
   ("bad_tool", fun _ => .error ⟨"RuntimeError", "boom"⟩)]

/-- Witness for C7: the three dispatch outcomes at concrete tool calls. -/
theorem execute_tool_never_raises_witness :
    execute_tool demoTools ⟨"t0", "nope", ()⟩ = "Error: Unknown tool 'nope'" ∧
    execute_tool demoTools ⟨"t1", "bad_tool", ()⟩ =
      "Tool 'bad_tool' failed: RuntimeError: boom" ∧
    execute_tool demoTools ⟨"t2", "none_tool", ()⟩ = "Done." := by
  refine ⟨?_, ?_, ?_⟩
  · exact (execute_tool_never_raises demoTools ⟨"t0", "nope", ()⟩).1 rfl
  · exact ((execute_tool_never_raises demoTools ⟨"t1", "bad_tool", ()⟩).2
      ("bad_tool", fun _ => .error ⟨"RuntimeError", "boom"⟩) rfl).1
      ⟨"RuntimeError", "boom"⟩ rfl
  · exact (((execute_tool_never_raises demoTools ⟨"t2", "none_tool", ()⟩).2
      ("none_tool", fun _ => .ok none) rfl).2 rfl).1

structure LLMResponse (α : Type) where
  text : String
  tool_calls : List (ToolCall α)
deriving DecidableEq

inductive ProviderTag where
  | openai
  | anthropic
  | generic
deriving DecidableEq

/-- `Agent._format_assistant_tool_message`: shape depends on the provider
class. -/
def format_assistant_tool_message {α : Type} (dumps : α → String)
    (tag : ProviderTag) (response : LLMResponse α) : Message α :=
  match tag with
  | .openai => ⟨"assistant", .str response.text, response.tool_calls, none⟩
  | .anthropic =>
    ⟨"assistant",
      .blocks ((if response.text ≠ "" then [Block.text response.text] else []) ++
        response.tool_calls.map (fun tc => Block.tool_use tc.id tc.name tc.arguments)),
      [], none⟩
  | .generic =>
    if response.tool_calls.isEmpty then ⟨"assistant", .str response.text, [], none⟩
    else
      let calls_text := joinWith "\n" (response.tool_calls.map (fun tc =>
        "[Calling " ++ tc.name ++ "(" ++ dumps tc.arguments ++ ")]"))
      ⟨"assistant", .str (pyStrip (response.text ++ "\n" ++ calls_text)), [], none⟩

/-- `Agent._format_tool_result`. -/
def format_tool_result {α : Type} (tag : ProviderTag) (tc : ToolCall α)
    (result : String) : Message α :=
  match tag with
  | .openai => ⟨"tool", .str result, [], some tc.id⟩
  | .anthropic => ⟨"user", .blocks [.tool_result tc.id result], [], none⟩
  | .generic =>
    ⟨"user", .str ("[Tool result for " ++ tc.name ++ "]: " ++ result), [], none⟩

/-- `Agent._build_messages` with no skill loader configured: the system
prompt followed by the history. -/
def build_messages {α : Type} (system_prompt : String)
    (history : List (Message α)) : List (Message α) :=
  ⟨"system", .str system_prompt, [], none⟩ :: history

/-- `Agent._trim_history`. -/
def trim_history {α : Type} (max_messages : Nat) (history : List (Message α)) :
    List (Message α) :=
  if history.length > max_messages
  then history.drop (history.length - max_messages)
  else history

/-- `Agent._compact_or_trim`: a configured compactor (config, resolved
window, provider), or the hard 40-message trim. -/
def compact_or_trim {α : Type}
    (compactor : Option (CompactorConfig × Nat × (String → Option String)))
    (history : List (Message α)) : List (Message α) :=
  match compactor with
  | some (cfg, window, raw) => compact cfg window raw history
  | none => trim_history 40 history

/-- Observable events of one `chat` call: provider invocations and tool
executions, tagged with the loop iteration that performed them. -/
inductive ChatEvent where
  | provider_call (iteration : Nat)
  | tool_exec (iteration : Nat) (name : String) (failed : Bool)
deriving DecidableEq

inductive LoopResult (α : Type) where
  | final (text : String)
  | capped (last : LLMResponse α)
deriving DecidableEq

/-- The tool-calling loop of `Agent.chat` (`for iteration in range(10)`).
`fuel` is the number of provider calls still allowed and `prev` the previous
response (what `response` holds when the range is exhausted). -/
def chatLoop {α : Type} (provider : List (Message α) → LLMResponse α)
    (tools : List (String × Handler α)) (tag : ProviderTag) (dumps : α → String) :
    Nat → Nat → LLMResponse α → List (Message α) → List ChatEvent →
    LoopResult α × List ChatEvent
  | 0, _, prev, _, events => (.capped prev, events)
  | fuel + 1, iter, _, working, events =>
    let response := provider working
    let events := events ++ [ChatEvent.provider_call iter]
    if response.tool_calls.isEmpty then
      (.final (pyStrip response.text), events)
    else
      let working := working ++ [format_assistant_tool_message dumps tag response]
      let results := response.tool_calls.map
        (fun tc => format_tool_result tag tc (execute_tool tools tc))
      let tevents := response.tool_calls.map
        (fun tc => ChatEvent.tool_exec iter tc.name (tool_raised tools tc))
      chatLoop provider tools tag dumps fuel (iter + 1) response
        (working ++ results) (events ++ tevents)

/-- `Agent.chat` (text-only path, no skill loader): returns the final text,
the new history, and the event trace. -/
def chat {α : Type} (provider : List (Message α) → LLMResponse α)
    (tools : List (String × Handler α)) (tag : ProviderTag) (dumps : α → String)
    (system_prompt : String)
    (compactor : Option (CompactorConfig × Nat × (String → Option String)))
    (history : List (Message α)) (message : String) :
    String × List (Message α) × List ChatEvent :=
  match chatLoop provider tools tag dumps 10 0 ⟨"", []⟩
      (build_messages system_prompt
        (history ++ [⟨"user", .str message, [], none⟩])) [] with
  | (.final text, events) =>
    (text,
      compact_or_trim compactor ((history ++ [⟨"user", .str message, [], none⟩]) ++
        [⟨"assistant", .str text, [], none⟩]),
      events)
  | (.capped last, events) =>
    ((if last.text ≠ "" then last.text
      else "I got stuck in a tool loop. Try rephrasing?"),
      compact_or_trim compactor ((history ++ [⟨"user", .str message, [], none⟩]) ++
        [⟨"assistant",
          .str (if last.text ≠ "" then last.text
            else "I got stuck in a tool loop. Try rephrasing?"), [], none⟩]),
      events)

/-- Shape of the event trace the loop appends: the loop opens with a provider
call whenever fuel remains, every tool execution happens in an iteration
within the fuel budget, and a tool execution in any iteration other than the
last one is followed by the next iteration's provider call. -/
theorem chatLoop_events {α : Type} (provider : List (Message α) → LLMResponse α)
    (tools : List (String × Handler α)) (tag : ProviderTag) (dumps : α → String) :
    ∀ (fuel iter : Nat) (prev : LLMResponse α) (working : List (Message α))
      (events0 : List ChatEvent),
      ∃ d, (chatLoop provider tools tag dumps fuel iter prev working events0).2 =
          events0 ++ d ∧
        (1 ≤ fuel → ChatEvent.provider_call iter ∈ d) ∧
        (∀ i name fl, ChatEvent.tool_exec i name fl ∈ d →
          iter ≤ i ∧ i < iter + fuel ∧
          (i + 1 < iter + fuel → ChatEvent.provider_call (i + 1) ∈ d)) := by
  intro fuel
  induction fuel with
  | zero =>
    intro iter prev working events0
    exact ⟨[], by simp [chatLoop], by omega, by intro i name fl h; cases h⟩
  | succ fuel ih =>
    intro iter prev working events0
    simp only [chatLoop]
    by_cases hempty : (provider working).tool_calls.isEmpty
    · rw [if_pos hempty]
      refine ⟨[ChatEvent.provider_call iter], rfl, fun _ => by simp, ?_⟩
      intro i name fl h
      simp at h
    · rw [if_neg hempty]
      obtain ⟨d, hd, hpc, htool⟩ := ih (iter + 1) (provider working)
        ((working ++ [format_assistant_tool_message dumps tag (provider working)]) ++
          (provider working).tool_calls.map
            (fun tc => format_tool_result tag tc (execute_tool tools tc)))
        ((events0 ++ [ChatEvent.provider_call iter]) ++
          (provider working).tool_calls.map
            (fun tc => ChatEvent.tool_exec iter tc.name (tool_raised tools tc)))
      refine ⟨[ChatEvent.provider_call iter] ++
        (provider working).tool_calls.map
          (fun tc => ChatEvent.tool_exec iter tc.name (tool_raised tools tc)) ++ d,
        ?_, ?_, ?_⟩
      · rw [hd]; simp
      · intro _; simp
      · intro i name fl h
        rcases List.mem_append.mp h with h12 | hd3
        · rcases List.mem_append.mp h12 with h1 | h2
          · simp at h1
          · obtain ⟨tc, htcmem, htc⟩ := List.mem_map.mp h2
            injection htc with e1 e2 e3
            subst e1
            subst e2
            subst e3
            refine ⟨Nat.le_refl _, by omega, ?_⟩
            intro hlt
            have hin : ChatEvent.provider_call (iter + 1) ∈ d := hpc (by omega)
            exact List.mem_append.mpr (Or.inr hin)
        · obtain ⟨h1, h2, h3⟩ := htool i name fl hd3
          refine ⟨by omega, by omega, ?_⟩
          intro hlt
          exact List.mem_append.mpr (Or.inr (h3 (by omega)))

theorem trim_history_noop {α : Type} {history : List (Message α)} {m : Nat}
    (h : history.length ≤ m) : trim_history m history = history := by
  unfold trim_history
  rw [if_neg (by omega)]

/-- **C4 (amended).** For an agent with no compactor whose history stays
within the 40-message trim bound, a `chat` call grows the history by exactly
the user turn and one final assistant turn carrying the returned text — in
particular tool-use and tool-result messages never reach the history, however
many tool calls fail; and a tool call whose handler raises in any iteration
other than the last (10th) is followed by at least one further provider
call. -/
theorem chat_tool_failure_resilience {α : Type}
    (provider : List (Message α) → LLMResponse α)
    (tools : List (String × Handler α)) (tag : ProviderTag) (dumps : α → String)
    (system_prompt : String) (history : List (Message α)) (message : String)
    (hlen : history.length + 2 ≤ 40) :
    (chat provider tools tag dumps system_prompt none history message).2.1 =
      history ++ [⟨"user", .str message, [], none⟩,
        ⟨"assistant",
          .str (chat provider tools tag dumps system_prompt none history message).1,
          [], none⟩] ∧
    ChatEvent.provider_call 0 ∈
      (chat provider tools tag dumps system_prompt none history message).2.2 ∧
    (∀ i name, ChatEvent.tool_exec i name true ∈
        (chat provider tools tag dumps system_prompt none history message).2.2 →
      i + 1 < 10 →
      ChatEvent.provider_call (i + 1) ∈
        (chat provider tools tag dumps system_prompt none history message).2.2) := by
  obtain ⟨d, hd, hpc, htool⟩ := chatLoop_events provider tools tag dumps 10 0 ⟨"", []⟩
    (build_messages system_prompt (history ++ [⟨"user", .str message, [], none⟩])) []
  simp only [List.nil_append] at hd
  have hgrow : ∀ text : String,
      compact_or_trim none ((history ++ [(⟨"user", .str message, [], none⟩ : Message α)])
        ++ [⟨"assistant", .str text, [], none⟩]) =
      history ++ [⟨"user", .str message, [], none⟩, ⟨"assistant", .str text, [], none⟩] := by
    intro text
    unfold compact_or_trim
    rw [trim_history_noop (by simp; omega)]
    simp
  rcases hloop : chatLoop provider tools tag dumps 10 0 ⟨"", []⟩
      (build_messages system_prompt (history ++ [⟨"user", .str message, [], none⟩])) []
    with ⟨res, events⟩
  rw [hloop] at hd
  cases res with
  | final text =>
    unfold chat
    rw [hloop]
    dsimp only at hd ⊢
    subst hd
    refine ⟨hgrow text, hpc (by omega), ?_⟩
    intro i name hmem hlt
    exact (htool i name true hmem).2.2 (by omega)
  | capped last =>
    unfold chat
    rw [hloop]
    dsimp only at hd ⊢
    subst hd
    refine ⟨hgrow _, hpc (by omega), ?_⟩
    intro i name hmem hlt
    exact (htool i name true hmem).2.2 (by omega)

/-- Provider for the C4 witness: one failing tool call, then a final text. -/
def demoProvider : List (Message Unit) → LLMResponse Unit := fun w =>
  if w.length < 3 then ⟨"", [⟨"c1", "bad_tool", ()⟩]⟩ else ⟨"All done", []⟩

/-- Witness for C4: the failing tool call in iteration 0 is followed by the
provider call of iteration 1, and the history ends as user turn plus final
assistant turn only. -/
theorem chat_tool_failure_resilience_witness :
    (chat demoProvider demoTools .anthropic (fun _ => "") "sys" none [] "hi").2.1 =
      [⟨"user", .str "hi", [], none⟩, ⟨"assistant", .str "All done", [], none⟩] ∧
    ChatEvent.tool_exec 0 "bad_tool" true ∈
      (chat demoProvider demoTools .anthropic (fun _ => "") "sys" none [] "hi").2.2 ∧
    ChatEvent.provider_call 1 ∈
      (chat demoProvider demoTools .anthropic (fun _ => "") "sys" none [] "hi").2.2 := by
  have h := chat_tool_failure_resilience demoProvider demoTools .anthropic
    (fun _ => "") "sys" [] "hi" (by decide)
  have hmem : ChatEvent.tool_exec 0 "bad_tool" true ∈
      (chat demoProvider demoTools .anthropic (fun _ => "") "sys" none [] "hi").2.2 := by
    decide
  have htext : (chat demoProvider demoTools .anthropic (fun _ => "") "sys" none
      [] "hi").1 = "All done" := by decide
  refine ⟨?_, hmem, h.2.2 0 "bad_tool" hmem (by omega)⟩
  have hh := h.1
  rw [htext] at hh
  simpa using hh

/-- The environment of the C4 counterexample: nine successful tool
iterations, then a failing tool call in the tenth (final) iteration, against
a 40-message history. -/
def providerCE : List (Message Unit) → LLMResponse Unit := fun w =>
  if w.length < 60 then ⟨"", [⟨"t1", "ok_tool", ()⟩]⟩
  else ⟨"", [⟨"t2", "bad_tool", ()⟩]⟩

def hist40 : List (Message Unit) :=
  List.replicate 40 ⟨"user", .str "x", [], none⟩

/-- **C4, counterexample to the claim as stated.** In this `chat` call a tool
handler raises (in the 10th iteration), yet the loop performs no further
provider call after the failing tool — every provider call has iteration at
most 9 — and the history grows by 0 messages, not 2, because the
no-compactor 40-message trim discards the oldest turns. -/
theorem chat_growth_counterexample :
    ChatEvent.tool_exec 9 "bad_tool" true ∈
      (chat providerCE demoTools .anthropic (fun _ => "") "sys" none hist40 "go").2.2 ∧
    ((chat providerCE demoTools .anthropic (fun _ => "") "sys" none
        hist40 "go").2.2.all (fun e =>
      match e with
      | ChatEvent.provider_call i => decide (i ≤ 9)
      | _ => true)) = true ∧
    (chat providerCE demoTools .anthropic (fun _ => "") "sys" none
      hist40 "go").2.1.length = 40 ∧
    hist40.length = 40 := by
  refine ⟨by decide, by decide, by decide, by decide⟩

/-! ## scheduler.py — `ScheduleParser`

UTC instants are modelled as seconds since the Unix epoch (`Nat`). The
source works at microsecond resolution, but every instant `next_run`
constructs lies on a whole minute, so the branch conditions and results are
exact at second resolution. `datetime.replace(hour=h, minute=m, second=0,
microsecond=0)` raises `ValueError` on out-of-range fields; that exception —
like a `TypeError` from subscripting a failed time parse, or an unrecognized
schedule — makes `next_run` produce no instant, modelled as `none`. -/

def startOfDay (t : Nat) : Nat := t - t % 86400

/-- Python `datetime.weekday()`: Monday = 0. The epoch day was a Thursday. -/
def pyWeekday (t : Nat) : Nat := (t / 86400 + 3) % 7

def hourOf (t : Nat) : Nat := t % 86400 / 3600

def minuteOf (t : Nat) : Nat := t % 3600 / 60

def natOfDigits (ds : List Char) : Nat :=
  ds.foldl (fun a c => a * 10 + (c.toNat - 48)) 0

def stripTrailing (cs : List Char) : List Char :=
  (cs.reverse.dropWhile isPySpace).reverse

/-- Match a literal at the start, returning the remainder. -/
def matchLit (lit s : List Char) : Option (List Char) :=
  if lit.isPrefixOf s then some (s.drop lit.length) else none

/-- `\s+`: at least one whitespace character, consumed greedily. -/
def wsPlus (s : List Char) : Option (List Char) :=
  match s with
  | c :: _ => if isPySpace c then some (s.dropWhile isPySpace) else none
  | [] => none

/-- `<kw>\s+(.+)$`: keyword, whitespace, then a non-empty single-line rest. -/
def matchKeywordRest (kw s : List Char) : Option (List Char) :=
  match matchLit kw s with
  | none => none
  | some r =>
    match wsPlus r with
    | none => none
    | some rest =>
      if rest ≠ [] ∧ ¬ rest.contains '\n' then some rest else none

/-- The unit alternation `h|hr|hours?|m|min|minutes?|d|days?`. -/
def intervalUnits : List (List Char) :=
  ["h".data, "hr".data, "hour".data, "hours".data, "m".data, "min".data,
   "minute".data, "minutes".data, "d".data, "day".data, "days".data]

/-- `every\s+(\d+)\s*(h|hr|hours?|m|min|minutes?|d|days?)\s*$`, returning the
amount and the first character of the unit. -/
def parse_interval (s : List Char) : Option (Nat × Char) :=
  match matchLit "every".data s with
  | none => none
  | some r =>
    match wsPlus r with
    | none => none
    | some r1 =>
      let ds := r1.takeWhile Char.isDigit
      if ds = [] then none
      else
        let unitStr := stripTrailing ((r1.dropWhile Char.isDigit).dropWhile isPySpace)
        if intervalUnits.contains unitStr then
          some (natOfDigits ds, unitStr.headD 'h')
        else none

/-- The `timedelta` table keyed by the unit's first character. -/
def unitSecs (u : Char) : Nat :=
  if u = 'h' then 3600 else if u = 'm' then 60 else 86400

/-- `every\s+day\s+at\s+(.+)$`, returning the time part. -/
def match_daily (s : List Char) : Option (List Char) :=
  match matchLit "every".data s with
  | none => none
  | some r1 =>
    match wsPlus r1 with
    | none => none
    | some r2 =>
      match matchLit "day".data r2 with
      | none => none
      | some r3 =>
        match wsPlus r3 with
        | none => none
        | some r4 => matchKeywordRest "at".data r4

def weekdayWords : List (List Char × Nat) :=
  [("monday".data, 0), ("tuesday".data, 1), ("wednesday".data, 2),
   ("thursday".data, 3), ("friday".data, 4), ("saturday".data, 5),
   ("sunday".data, 6)]

/-- `every\s+(monday|…|sunday)(?:\s+at\s+(.+))?$`, returning the day number
and the optional time part. -/
def match_weekday (s : List Char) : Option (Nat × Option (List Char)) :=
  match matchLit "every".data s with
  | none => none
  | some r1 =>
    match wsPlus r1 with
    | none => none
    | some r2 =>
      match weekdayWords.find? (fun p => p.1.isPrefixOf r2) with
      | none => none
      | some p =>
        match r2.drop p.1.length with
        | [] => some (p.2, none)
        | r3 =>
          match wsPlus r3 with
          | none => none
          | some r4 =>
            match matchKeywordRest "at".data r4 with
            | none => none
            | some rest => some (p.2, some rest)

/-- `_parse_time`: `9am`, `3:30pm`, `09:00` forms (the schedule is already
lowercased). -/
def parse_time (cs0 : List Char) : Option (Nat × Nat) :=
  let cs := stripChars cs0
  let ds := cs.takeWhile Char.isDigit
  let rest := cs.dropWhile Char.isDigit
  if ds = [] ∨ ds.length > 2 then none
  else
    let h := natOfDigits ds
    match rest with
    | ':' :: m1 :: m2 :: r3 =>
      if m1.isDigit && m2.isDigit then
        let m := natOfDigits [m1, m2]
        match r3 with
        | [] => some (h, m)
        | _ =>
          let r4 := r3.dropWhile isPySpace
          if r4 = ['a', 'm'] then
            some ((if h = 12 then 0 else h), m)
          else if r4 = ['p', 'm'] then
            some ((if h ≠ 12 then h + 12 else h), m)
          else none
      else none
    | _ =>
      let r1 := rest.dropWhile isPySpace
      if r1 = ['a', 'm'] then some ((if h = 12 then 0 else h), 0)
      else if r1 = ['p', 'm'] then some ((if h ≠ 12 then h + 12 else h), 0)
      else none

/-- `now.replace(hour, minute, second=0, microsecond=0)`, bumped by a day
when not in the future. -/
def dailyCandidate (now hh mm : Nat) : Nat :=
  let c := startOfDay now + hh * 3600 + mm * 60
  if c ≤ now then c + 86400 else c

/-- The `every day at <time>` branch: `none` means fall through to the next
branch (no regex match, or an unparsable time); `some none` means the
`replace` call raised. -/
def try_daily (s : List Char) (now : Nat) : Option (Option Nat) :=
  match match_daily s with
  | none => none
  | some timePart =>
    match parse_time timePart with
    | none => none
    | some (hh, mm) =>
      if hh ≤ 23 ∧ mm ≤ 59 then some (some (dailyCandidate now hh mm))
      else some none

/-- The `every <weekday> [at <time>]` branch. An unparsable explicit time
raises (`None[0]`), so it yields `some none`, not a fall-through. -/
def try_weekday (s : List Char) (now : Nat) : Option (Option Nat) :=
  match match_weekday s with
  | none => none
  | some (target_day, timePart) =>
    match (match timePart with
           | none => some (9, 0)
           | some tp => parse_time tp) with
    | none => some none
    | some (hh, mm) =>
      if hh ≤ 23 ∧ mm ≤ 59 then
        let w := pyWeekday now
        let days_ahead := if target_day ≤ w then target_day + 7 - w else target_day - w
        some (some (startOfDay now + hh * 3600 + mm * 60 + days_ahead * 86400))
      else some none

/-- The one-shot `at <time>` branch (daily-candidate semantics). -/
def try_at (s : List Char) (now : Nat) : Option (Option Nat) :=
  match matchKeywordRest "at".data s with
  | none => none
  | some rest =>
    match parse_time rest with
    | none => none
    | some (hh, mm) =>
      if hh ≤ 23 ∧ mm ≤ 59 then some (some (dailyCandidate now hh mm))
      else some none

/-! ### `_next_cron` -/

/-- `str.split()` with no separator: whitespace runs, no empty tokens.
Each step consumes at least one character, so `fuel = length` suffices. -/
def pySplitWsFuel : Nat → List Char → List (List Char)
  | 0, _ => []
  | fuel + 1, cs =>
    match cs.dropWhile isPySpace with
    | [] => []
    | c :: r =>
      ((c :: r).takeWhile (fun x => !isPySpace x)) ::
        pySplitWsFuel fuel ((c :: r).dropWhile (fun x => !isPySpace x))

/-- `str.split(sep, 1)` when the separator occurs. -/
def splitOnce (sep : Char) : List Char → Option (List Char × List Char)
  | [] => none
  | c :: r =>
    if c = sep then some ([], r)
    else (splitOnce sep r).map (fun p => (c :: p.1, p.2))

/-- `str.split(sep)` (full split, empties kept). `fuel = length` suffices. -/
def splitAllFuel : Nat → Char → List Char → List (List Char)
  | 0, _, cs => [cs]
  | fuel + 1, sep, cs =>
    match splitOnce sep cs with
    | none => [cs]
    | some (a, b) => a :: splitAllFuel fuel sep b

/-- `int(str)` restricted to the digit strings cron fields carry; anything
else raises `ValueError`, caught by the caller (`none`). -/
def pyInt (cs : List Char) : Option Nat :=
  if cs ≠ [] ∧ cs.all Char.isDigit then some (natOfDigits cs) else none

/-- The `expand` helper of `_next_cron`: `*`, `*/n`, `a-b`, `a,b,…`, or a
single number. `range(start, stop, 0)` raises, hence `none` on a zero
step. -/
def expandField (field : List Char) (lo hi : Nat) : Option (List Nat) :=
  if field = ['*'] then some (List.range' lo (hi + 1 - lo))
  else if field.contains '/' then
    match splitOnce '/' field with
    | none => none
    | some (base, step) =>
      match (if base = ['*'] then some lo else pyInt base), pyInt step with
      | some start, some st =>
        if st = 0 then none
        else some (List.range' start ((hi + 1 - start + (st - 1)) / st) st)
      | _, _ => none
  else if field.contains '-' then
    match splitOnce '-' field with
    | none => none
    | some (a, b) =>
      match pyInt a, pyInt b with
      | some va, some vb => some (List.range' va (vb + 1 - va))
      | _, _ => none
  else if field.contains ',' then
    (splitAllFuel field.length ',' field).mapM pyInt
  else (pyInt field).map ([·])

/-- Proleptic Gregorian date of an epoch instant (`days_from_civil`
inverted, valid for `t ≥ 0`): `(year, month, day)`. -/
def civilOf (t : Nat) : Nat × Nat × Nat :=
  let z := t / 86400 + 719468
  let era := z / 146097
  let doe := z % 146097
  let yoe := (doe - doe / 1460 + doe / 36524 - doe / 146096) / 365
  let y := yoe + era * 400
  let doy := doe - (365 * yoe + yoe / 4 - yoe / 100)
  let mp := (5 * doy + 2) / 153
  let d := doy - (153 * mp + 2) / 5 + 1
  let m := if mp < 10 then mp + 3 else mp - 9
  (if m ≤ 2 then y + 1 else y, m, d)

def monthOf (t : Nat) : Nat := (civilOf t).2.1

def dayOfMonth (t : Nat) : Nat := (civilOf t).2.2

/-- The minute-by-minute scan of `_next_cron` (about one year of fuel). -/
def cron_scan (vmin vhr vday vmon vdow : List Nat) : Nat → Nat → Option Nat
  | 0, _ => none
  | fuel + 1, candidate =>
    if vmin.contains (minuteOf candidate) && vhr.contains (hourOf candidate)
        && vday.contains (dayOfMonth candidate) && vmon.contains (monthOf candidate)
        && vdow.contains (pyWeekday candidate) then
      some candidate
    else cron_scan vmin vhr vday vmon vdow fuel (candidate + 60)

/-- `_next_cron`. -/
def next_cron (rest : List Char) (now : Nat) : Option Nat :=
  match pySplitWsFuel rest.length rest with
  | [f1, f2, f3, f4, f5] =>
    match expandField f1 0 59, expandField f2 0 23, expandField f3 1 31,
        expandField f4 1 12, expandField f5 0 6 with
    | some vmin, some vhr, some vday, some vmon, some vdow =>
      cron_scan vmin vhr vday vmon vdow 525960 (now - now % 60 + 60)
    | _, _, _, _, _ => none
  | _ => none

/-- `schedule.strip().lower()`. -/
def normSched (schedule : String) : List Char :=
  stripChars (schedule.data.map Char.toLower)

/-- `ScheduleParser.next_run`: the five branches in source order. -/
def next_run (schedule : String) (now : Nat) : Option Nat :=
  let s := normSched schedule
  match parse_interval s with
  | some (amount, unit) => some (now + amount * unitSecs unit)
  | none =>
    match try_daily s now with
    | some r => r
    | none =>
      match try_weekday s now with
      | some r => r
      | none =>
        match try_at s now with
        | some r => r
        | none =>
          match matchKeywordRest "cron".data s with
          | some rest => next_cron rest now
          | none => none

theorem dailyCandidate_bounds (now hh mm : Nat) (hh23 : hh ≤ 23) (mm59 : mm ≤ 59) :
    now < dailyCandidate now hh mm ∧ dailyCandidate now hh mm ≤ now + 86400 := by
  unfold dailyCandidate startOfDay
  have h1 : now % 86400 < 86400 := Nat.mod_lt _ (by omega)
  have h2 : now % 86400 ≤ now := Nat.mod_le _ _
  dsimp only
  split_ifs with hc <;> omega

theorem try_daily_bounds {s : List Char} {now t1 : Nat}
    (h : try_daily s now = some (some t1)) :
    now < t1 ∧ t1 ≤ now + 86400 := by
  unfold try_daily at h
  rcases hd : match_daily s with _ | tp
  · rw [hd] at h; cases h
  · rw [hd] at h
    dsimp only at h
    rcases hp : parse_time tp with _ | ⟨hh, mm⟩
    · rw [hp] at h; cases h
    · rw [hp] at h
      dsimp only at h
      split_ifs at h with hv
      · simp only [Option.some.injEq] at h
        subst h
        exact dailyCandidate_bounds now hh mm hv.1 hv.2
      · simp at h

theorem try_at_bounds {s : List Char} {now t1 : Nat}
    (h : try_at s now = some (some t1)) :
    now < t1 ∧ t1 ≤ now + 86400 := by
  unfold try_at at h
  rcases hd : matchKeywordRest "at".data s with _ | rest
  · rw [hd] at h; cases h
  · rw [hd] at h
    dsimp only at h
    rcases hp : parse_time rest with _ | ⟨hh, mm⟩
    · rw [hp] at h; cases h
    · rw [hp] at h
      dsimp only at h
      split_ifs at h with hv
      · simp only [Option.some.injEq] at h
        subst h
        exact dailyCandidate_bounds now hh mm hv.1 hv.2
      · simp at h

theorem match_weekday_day_le {s : List Char} {d : Nat} {tp : Option (List Char)}
    (h : match_weekday s = some (d, tp)) : d ≤ 6 := by
  unfold match_weekday at h
  rcases h1 : matchLit "every".data s with _ | r1
  all_goals rw [h1] at h
  · cases h
  dsimp only at h
  rcases h2 : wsPlus r1 with _ | r2
  all_goals rw [h2] at h
  · cases h
  dsimp only at h
  rcases h3 : weekdayWords.find? (fun p => p.1.isPrefixOf r2) with _ | p
  all_goals rw [h3] at h
  · cases h
  dsimp only at h
  have hmem : p ∈ weekdayWords := List.mem_of_find?_eq_some h3
  have hp6 : p.2 ≤ 6 := by
    have hall : ∀ q ∈ weekdayWords, q.2 ≤ 6 := by decide
    exact hall p hmem
  rcases hr3 : r2.drop p.1.length with _ | ⟨c, r3⟩
  all_goals rw [hr3] at h
  · simp only [Option.some.injEq, Prod.mk.injEq] at h
    omega
  dsimp only at h
  rcases h4 : wsPlus (c :: r3) with _ | r4
  all_goals rw [h4] at h
  · cases h
  dsimp only at h
  rcases h5 : matchKeywordRest "at".data r4 with _ | rest
  all_goals rw [h5] at h
  · cases h
  dsimp only at h
  simp only [Option.some.injEq, Prod.mk.injEq] at h
  omega

theorem try_weekday_bounds {s : List Char} {now t1 : Nat}
    (h : try_weekday s now = some (some t1)) :
    now < t1 ∧ t1 < now + 8 * 86400 := by
  unfold try_weekday at h
  rcases hw : match_weekday s with _ | ⟨d, tp⟩
  · rw [hw] at h; cases h
  · rw [hw] at h
    dsimp only at h
    have hd6 : d ≤ 6 := match_weekday_day_le hw
    rcases ht : (match tp with
        | none => some (9, 0)
        | some tp => parse_time tp) with _ | ⟨hh, mm⟩
    · rw [ht] at h; simp at h
    · rw [ht] at h
      dsimp only at h
      have hwd : pyWeekday now < 7 := Nat.mod_lt _ (by omega)
      have h1 : now % 86400 < 86400 := Nat.mod_lt _ (by omega)
      have h2 : now % 86400 ≤ now := Nat.mod_le _ _
      unfold startOfDay at h
      split_ifs at h with hv hda
      · simp only [Option.some.injEq] at h
        have hv1 := hv.1
        have hv2 := hv.2
        omega
      · simp only [Option.some.injEq] at h
        have hv1 := hv.1
        have hv2 := hv.2
        omega
      · simp at h

theorem cron_scan_ge {vmin vhr vday vmon vdow : List Nat} :
    ∀ (fuel cand t : Nat), cron_scan vmin vhr vday vmon vdow fuel cand = some t →
      cand ≤ t := by
  intro fuel
  induction fuel with
  | zero => intro cand t h; cases h
  | succ fuel ih =>
    intro cand t h
    simp only [cron_scan] at h
    split_ifs at h with hc
    · simp only [Option.some.injEq] at h
      omega
    · have := ih (cand + 60) t h
      omega

theorem next_cron_gt {rest : List Char} {now t1 : Nat}
    (h : next_cron rest now = some t1) : now < t1 := by
  unfold next_cron at h
  have hm : now % 60 < 60 := Nat.mod_lt _ (by omega)
  have hm2 : now % 60 ≤ now := Nat.mod_le _ _
  split at h
  · split at h
    · have := cron_scan_ge _ _ _ h
      omega
    · cases h
  · cases h

/-- **C5 (amended).** Whenever `next_run` produces an instant `t1` from a
reference time `t0`, `t0 ≤ t1`; for `every N(h|m|d)` the gap is exactly
`N` units (so `t0 < t1` iff `N ≥ 1` — `N = 0` is accepted and yields
`t1 = t0`); for `every day at <time>` the gap is positive and at most 24
hours; for `every <weekday> [at <time>]` the gap is positive and less than
8 days (it can exceed 7 days when the reference day is the target weekday
and the target time is later that day). -/
theorem next_run_bounds (schedule : String) (now t1 : Nat)
    (h : next_run schedule now = some t1) :
    now ≤ t1 ∧
    (∀ n u, parse_interval (normSched schedule) = some (n, u) →
      t1 = now + n * unitSecs u ∧ (1 ≤ n → now < t1)) ∧
    (parse_interval (normSched schedule) = none →
      ∀ tp, match_daily (normSched schedule) = some tp →
      ∀ hh mm, parse_time tp = some (hh, mm) →
      now < t1 ∧ t1 ≤ now + 86400) ∧
    (parse_interval (normSched schedule) = none →
      try_daily (normSched schedule) now = none →
      ∀ w, match_weekday (normSched schedule) = some w →
      now < t1 ∧ t1 < now + 8 * 86400) := by
  unfold next_run at h
  dsimp only at h
  rcases hI : parse_interval (normSched schedule) with _ | ⟨n, u⟩
  · rw [hI] at h
    dsimp only at h
    refine ⟨?_, ?_, ?_, ?_⟩
    · -- global: t0 ≤ t1 through the remaining branches
      rcases hD : try_daily (normSched schedule) now with _ | r
      · rw [hD] at h
        dsimp only at h
        rcases hW : try_weekday (normSched schedule) now with _ | r
        · rw [hW] at h
          dsimp only at h
          rcases hA : try_at (normSched schedule) now with _ | r
          · rw [hA] at h
            dsimp only at h
            rcases hC : matchKeywordRest "cron".data (normSched schedule) with _ | rest
            · rw [hC] at h; cases h
            · rw [hC] at h
              dsimp only at h
              exact Nat.le_of_lt (next_cron_gt h)
          · rw [hA] at h
            dsimp only at h
            subst h
            exact Nat.le_of_lt (try_at_bounds hA).1
        · rw [hW] at h
          dsimp only at h
          subst h
          exact Nat.le_of_lt (try_weekday_bounds hW).1
      · rw [hD] at h
        dsimp only at h
        subst h
        exact Nat.le_of_lt (try_daily_bounds hD).1
    · intro n' u' hI2
      cases hI2
    · -- daily bounds
      intro _ tp htp hh mm hpt
      have hTD : try_daily (normSched schedule) now =
          (if hh ≤ 23 ∧ mm ≤ 59 then some (some (dailyCandidate now hh mm))
           else some none) := by
        unfold try_daily
        rw [htp]
        dsimp only
        rw [hpt]
      by_cases hv : hh ≤ 23 ∧ mm ≤ 59
      · rw [if_pos hv] at hTD
        rw [hTD] at h
        dsimp only at h
        simp only [Option.some.injEq] at h
        subst h
        exact dailyCandidate_bounds now hh mm hv.1 hv.2
      · rw [if_neg hv] at hTD
        rw [hTD] at h
        dsimp only at h
        cases h
    · -- weekday bounds
      intro _ hD w hW
      rw [hD] at h
      dsimp only at h
      rcases w with ⟨d, tp⟩
      have hTW : ∃ r, try_weekday (normSched schedule) now = some r := by
        unfold try_weekday
        rw [hW]
        dsimp only
        rcases tp with _ | tstr
        · dsimp only
          split_ifs <;> exact ⟨_, rfl⟩
        · dsimp only
          rcases hpt : parse_time tstr with _ | ⟨hh, mm⟩
          · try rw [hpt]
            dsimp only
            exact ⟨_, rfl⟩
          · try rw [hpt]
            dsimp only
            split_ifs <;> exact ⟨_, rfl⟩
      obtain ⟨r, hr⟩ := hTW
      rw [hr] at h
      dsimp only at h
      subst h
      exact try_weekday_bounds hr
  · rw [hI] at h
    dsimp only at h
    simp only [Option.some.injEq] at h
    subst h
    have hu : 60 ≤ unitSecs u := by
      unfold unitSecs
      split_ifs <;> omega
    refine ⟨Nat.le_add_right _ _, ?_, ?_, ?_⟩
    · intro n' u' hI2
      try rw [hI] at hI2
      simp only [Option.some.injEq, Prod.mk.injEq] at hI2
      obtain ⟨rfl, rfl⟩ := hI2
      refine ⟨rfl, ?_⟩
      intro hn
      have : unitSecs u ≤ n * unitSecs u := Nat.le_mul_of_pos_left _ (by omega)
      omega
    · intro h2
      try rw [hI] at h2
      cases h2
    · intro h2
      try rw [hI] at h2
      cases h2

/-- **C5, counterexample to the claim as stated.** `every 0h` is accepted by
the parser yet returns the reference time itself (violating `t1 > t0`), and
`every monday at 11pm` evaluated on a Monday at 00:00 UTC fires 7 days and
23 hours later — beyond the 7-day natural period of a weekday schedule. -/
theorem next_run_bounds_counterexample :
    next_run "every 0h" 1000000 = some 1000000 ∧
    ¬ (1000000 < 1000000) ∧
    pyWeekday 345600 = 0 ∧
    next_run "every monday at 11pm" 345600 = some 1033200 ∧
    7 * 86400 < 1033200 - 345600 := by
  exact ⟨by decide, by decide, by decide, by decide, by decide⟩

/-- Witness for C5: `every day at 9am` from midnight UTC fires at 09:00 the
same day and within 24 hours. -/
theorem next_run_bounds_witness :
    next_run "every day at 9am" 0 = some 32400 ∧ 0 < 32400 ∧ 32400 ≤ 0 + 86400 := by
  have h : next_run "every day at 9am" 0 = some 32400 := by decide
  have hb := next_run_bounds "every day at 9am" 0 32400 h
  exact ⟨h, hb.2.2.1 (by decide) "9am".data (by decide) 9 0 (by decide)⟩

/-! ## router.py — `AgentPool`

The cache is an insertion-ordered association list modelling the
`OrderedDict` (most recently used at the back). Agent instances are
identified by the value of a creation counter, which models Python object
identity: two instances are "the same object" exactly when their numbers are
equal. A freshly created agent starts with an empty history, so distinct
numbers mean independently owned histories. -/

def MAX_CACHE : Nat := 200

structure PoolState where
  agents : List (String × Nat)
  counter : Nat
deriving DecidableEq

/-- `f"{name}:{sender_id}" if sender_id else name`. -/
def poolKey (name sender_id : String) : String :=
  if sender_id ≠ "" then name ++ ":" ++ sender_id else name

/-- `OrderedDict.move_to_end` (to the back). -/
def move_to_end (key : String) (l : List (String × Nat)) : List (String × Nat) :=
  match l.find? (fun p => p.1 = key) with
  | some p => l.eraseP (fun p => p.1 = key) ++ [p]
  | none => l

/-- `_evict_if_needed`: drop least-recently-used entries (the front) until
the cache is back under `MAX_CACHE`. -/
def evict (l : List (String × Nat)) : List (String × Nat) :=
  if l.length > MAX_CACHE then l.drop (l.length - MAX_CACHE) else l

/-- `AgentPool.get_agent`. `none` models the `ValueError` when neither the
requested name nor `default` is configured. -/
def get_agent (configs : List String) (name sender_id : String)
    (st : PoolState) : Option (Nat × PoolState) :=
  let name := if configs.contains name then name else "default"
  if !configs.contains name then none
  else
    let key := poolKey name sender_id
    match st.agents.find? (fun p => p.1 = key) with
    | some p => some (p.2, ⟨move_to_end key st.agents, st.counter⟩)
    | none =>
      some (st.counter,
        ⟨evict (st.agents ++ [(key, st.counter)]), st.counter + 1⟩)

/-- Pool invariant: cached ids are below the counter, and both keys and ids
are duplicate-free (keys: it is a dict; ids: each instance is created
once). -/
def PoolWF (st : PoolState) : Prop :=
  (∀ p ∈ st.agents, p.2 < st.counter) ∧
  (st.agents.map Prod.fst).Nodup ∧
  (st.agents.map Prod.snd).Nodup

theorem get_agent_eq (configs : List String) (name sender_id : String)
    (st : PoolState) (h : configs.contains name = true) :
    get_agent configs name sender_id st =
      match st.agents.find? (fun p => p.1 = poolKey name sender_id) with
      | some p => some (p.2, ⟨move_to_end (poolKey name sender_id) st.agents, st.counter⟩)
      | none =>
        some (st.counter,
          ⟨evict (st.agents ++ [(poolKey name sender_id, st.counter)]), st.counter + 1⟩) := by
  have h' : name ∈ configs := by simpa using h
  unfold get_agent
  simp [h']

theorem move_to_end_perm {l : List (String × Nat)} {key : String}
    {p : String × Nat} (hf : l.find? (fun q => q.1 = key) = some p) :
    l.Perm (l.eraseP (fun q => q.1 = key) ++ [p]) := by
  induction l with
  | nil => cases hf
  | cons q tl ih =>
    by_cases hq : q.1 = key
    · rw [List.find?_cons_of_pos _ (by simpa using hq)] at hf
      simp only [Option.some.injEq] at hf
      subst hf
      rw [List.eraseP_cons_of_pos (by simpa using hq)]
      exact (List.perm_append_singleton _ _).symm
    · rw [List.find?_cons_of_neg _ (by simpa using hq)] at hf
      rw [List.eraseP_cons_of_neg (by simpa using hq)]
      exact (ih hf).cons q

/-- After erasing the key's entry from a duplicate-free cache, no entry with
that key remains. -/
theorem eraseP_no_key {l : List (String × Nat)} {key : String}
    (hnd : (l.map Prod.fst).Nodup) :
    ∀ y ∈ l.eraseP (fun q => q.1 = key), y.1 ≠ key := by
  induction l with
  | nil => intro y hy; cases hy
  | cons q tl ih =>
    simp only [List.map_cons, List.nodup_cons] at hnd
    by_cases hq : q.1 = key
    · rw [List.eraseP_cons_of_pos (by simpa using hq)]
      intro y hy hykey
      exact hnd.1 (by
        have hqy : q.1 = y.1 := by rw [hq, hykey]
        rw [hqy]
        exact List.mem_map_of_mem Prod.fst hy)
    · rw [List.eraseP_cons_of_neg (by simpa using hq)]
      intro y hy
      rcases List.mem_cons.mp hy with rfl | hy
      · exact hq
      · exact ih hnd.2 y hy

theorem find?_last {A : List (String × Nat)} {x : String × Nat}
    {pred : String × Nat → Bool} (hA : ∀ y ∈ A, pred y = false)
    (hx : pred x = true) : (A ++ [x]).find? pred = some x := by
  induction A with
  | nil => simp [List.find?, hx]
  | cons a tl ih =>
    have ha : pred a = false := hA a (by simp)
    simp only [List.cons_append]
    rw [List.find?_cons_of_neg _ (by simp [ha])]
    exact ih (fun y hy => hA y (by simp [hy]))

/-- A fresh insertion survives eviction and is found again. -/
theorem find?_evict_insert {l : List (String × Nat)} {key : String} {c : Nat}
    (hnone : l.find? (fun p => p.1 = key) = none) :
    (evict (l ++ [(key, c)])).find? (fun p => p.1 = key) = some (key, c) := by
  have hall : ∀ y ∈ l, (fun p => decide (p.1 = key)) y = false := by
    intro y hy
    have := List.find?_eq_none.mp hnone y hy
    simpa using this
  unfold evict
  split_ifs with hlen
  · have hlen2 : l.length + 1 - MAX_CACHE ≤ l.length := by
      unfold MAX_CACHE at hlen ⊢
      simp at hlen
      omega
    rw [List.length_append, List.length_singleton,
      List.drop_append_of_le_length hlen2]
    exact find?_last (fun y hy => hall y ((l.drop_sublist _).mem hy)) (by simp)
  · exact find?_last hall (by simp)

/-- The moved-to-back entry is found again. -/
theorem find?_move_to_end {l : List (String × Nat)} {key : String}
    {p : String × Nat} (hnd : (l.map Prod.fst).Nodup)
    (hf : l.find? (fun q => q.1 = key) = some p) :
    (move_to_end key l).find? (fun q => q.1 = key) = some p := by
  unfold move_to_end
  rw [hf]
  have hp : p.1 = key := by simpa using List.find?_some hf
  exact find?_last
    (fun y hy => by simpa using eraseP_no_key hnd y hy)
    (by simpa using hp)

/-- Two consecutive `get_agent` calls whose cache keys coincide return the
same instance. -/
theorem get_agent_same_key {configs : List String} {n1 s1 n2 s2 : String}
    {st : PoolState} {a1 a2 : Nat} {st1 st2 : PoolState}
    (hwf : PoolWF st)
    (h1 : configs.contains n1 = true) (h2 : configs.contains n2 = true)
    (hkey : poolKey n2 s2 = poolKey n1 s1)
    (g1 : get_agent configs n1 s1 st = some (a1, st1))
    (g2 : get_agent configs n2 s2 st1 = some (a2, st2)) :
    a2 = a1 := by
  rw [get_agent_eq configs n1 s1 st h1] at g1
  rw [get_agent_eq configs n2 s2 st1 h2, hkey] at g2
  rcases hf : st.agents.find? (fun p => p.1 = poolKey n1 s1) with _ | p
  · rw [hf] at g1
    simp only [Option.some.injEq, Prod.mk.injEq] at g1
    obtain ⟨ha1, hst1⟩ := g1
    have hfind := find?_evict_insert (c := st.counter) hf
    rw [← hst1] at g2
    dsimp only at g2
    rw [hfind] at g2
    simp only [Option.some.injEq, Prod.mk.injEq] at g2
    omega
  · rw [hf] at g1
    simp only [Option.some.injEq, Prod.mk.injEq] at g1
    obtain ⟨ha1, hst1⟩ := g1
    have hfind := find?_move_to_end hwf.2.1 hf
    rw [← hst1] at g2
    dsimp only at g2
    rw [hfind] at g2
    simp only [Option.some.injEq, Prod.mk.injEq] at g2
    omega

/-- Two consecutive `get_agent` calls with distinct cache keys return
distinct instances. -/
theorem get_agent_distinct_key {configs : List String} {n1 s1 n2 s2 : String}
    {st : PoolState} {a1 a2 : Nat} {st1 st2 : PoolState}
    (hwf : PoolWF st)
    (h1 : configs.contains n1 = true) (h2 : configs.contains n2 = true)
    (hkey : poolKey n2 s2 ≠ poolKey n1 s1)
    (g1 : get_agent configs n1 s1 st = some (a1, st1))
    (g2 : get_agent configs n2 s2 st1 = some (a2, st2)) :
    a1 ≠ a2 := by
  rw [get_agent_eq configs n1 s1 st h1] at g1
  rw [get_agent_eq configs n2 s2 st1 h2] at g2
  rcases hf : st.agents.find? (fun p => p.1 = poolKey n1 s1) with _ | p
  · -- first call created a fresh instance `st.counter`
    rw [hf] at g1
    simp only [Option.some.injEq, Prod.mk.injEq] at g1
    obtain ⟨ha1, hst1⟩ := g1
    rcases hf2 : st1.agents.find? (fun p => p.1 = poolKey n2 s2) with _ | q
    · rw [hf2] at g2
      simp only [Option.some.injEq, Prod.mk.injEq] at g2
      rw [← hst1] at g2
      dsimp only at g2
      omega
    · rw [hf2] at g2
      simp only [Option.some.injEq, Prod.mk.injEq] at g2
      have hqkey : q.1 = poolKey n2 s2 := by simpa using List.find?_some hf2
      have hqmem : q ∈ st1.agents := List.mem_of_find?_eq_some hf2
      rw [← hst1] at hqmem
      dsimp only at hqmem
      have hqmem2 : q ∈ st.agents ++ [(poolKey n1 s1, st.counter)] := by
        unfold evict at hqmem
        split_ifs at hqmem with hlen
        · exact (List.drop_sublist _ _).mem hqmem
        · exact hqmem
      rcases List.mem_append.mp hqmem2 with hold | hnew
      · have := hwf.1 q hold
        omega
      · rw [List.mem_singleton.mp hnew] at hqkey
        exact absurd hqkey.symm hkey
  · -- first call hit the cache: its instance is below the counter
    rw [hf] at g1
    simp only [Option.some.injEq, Prod.mk.injEq] at g1
    obtain ⟨ha1, hst1⟩ := g1
    have hpkey : p.1 = poolKey n1 s1 := by simpa using List.find?_some hf
    have hpmem : p ∈ st.agents := List.mem_of_find?_eq_some hf
    have ha1lt : a1 < st.counter := ha1 ▸ hwf.1 p hpmem
    have hperm : st.agents.Perm (move_to_end (poolKey n1 s1) st.agents) := by
      unfold move_to_end
      rw [hf]
      exact move_to_end_perm hf
    rcases hf2 : st1.agents.find? (fun p => p.1 = poolKey n2 s2) with _ | q
    · rw [hf2] at g2
      simp only [Option.some.injEq, Prod.mk.injEq] at g2
      rw [← hst1] at g2
      dsimp only at g2
      omega
    · rw [hf2] at g2
      simp only [Option.some.injEq, Prod.mk.injEq] at g2
      have hqkey : q.1 = poolKey n2 s2 := by simpa using List.find?_some hf2
      have hqmem : q ∈ st1.agents := List.mem_of_find?_eq_some hf2
      rw [← hst1] at hqmem
      dsimp only at hqmem
      have hqmem2 : q ∈ st.agents := hperm.mem_iff.mpr hqmem
      intro heq
      have hpq : p = q := by
        apply List.inj_on_of_nodup_map hwf.2.2 hpmem hqmem2
        rw [← ha1, ← g2.1] at heq
        exact heq
      rw [hpq, hqkey] at hpkey
      exact hkey hpkey

/-- `l1` all failing and `p` matching locate the first hit of `find?`. -/
theorem find?_first {α : Type} {l1 l2 : List α} {p : α} {pred : α → Bool}
    (h1 : ∀ q ∈ l1, pred q = false) (hp : pred p = true) :
    (l1 ++ p :: l2).find? pred = some p := by
  induction l1 with
  | nil => simp [List.find?, hp]
  | cons a tl ih =>
    rw [List.cons_append, List.find?_cons_of_neg _ (by simp [h1 a (by simp)])]
    exact ih (fun q hq => h1 q (by simp [hq]))

/-- For a fixed agent name the cache key determines the sender id. -/
theorem poolKey_inj {name s1 s2 : String} (h : poolKey name s2 = poolKey name s1) :
    s2 = s1 := by
  have hc : (":" : String).length = 1 := rfl
  unfold poolKey at h
  by_cases h2 : s2 = ""
  · by_cases h1 : s1 = ""
    · rw [h2, h1]
    · rw [if_neg (by simp [h2]), if_pos h1] at h
      have hl := congrArg String.length h
      simp only [String.length_append] at hl
      omega
  · by_cases h1 : s1 = ""
    · rw [if_pos h2, if_neg (by simp [h1])] at h
      have hl := congrArg String.length h
      simp only [String.length_append] at hl
      omega
    · rw [if_pos h2, if_pos h1] at h
      have hd := congrArg String.data h
      simp only [String.data_append] at hd
      exact String.ext (List.append_cancel_left hd)

/-- **C6.** For every configured agent name, two consecutive
`pool.get_agent(name, sender_id)` calls (no intervening eviction can occur:
the second call is a cache hit) return the identical agent instance; and for
two distinct sender ids of the same name the returned instances are
distinct — independently created, hence with independent histories. -/
theorem get_agent_isolation (configs : List String) (name : String)
    (st : PoolState) (hwf : PoolWF st) (hname : configs.contains name = true) :
    (∀ s a1 a2 st1 st2,
      get_agent configs name s st = some (a1, st1) →
      get_agent configs name s st1 = some (a2, st2) →
      a2 = a1) ∧
    (∀ s1 s2 a1 a2 st1 st2, s1 ≠ s2 →
      get_agent configs name s1 st = some (a1, st1) →
      get_agent configs name s2 st1 = some (a2, st2) →
      a1 ≠ a2) := by
  refine ⟨?_, ?_⟩
  · intro s a1 a2 st1 st2 g1 g2
    exact get_agent_same_key hwf hname hname rfl g1 g2
  · intro s1 s2 a1 a2 st1 st2 hs g1 g2
    have hkey : poolKey name s2 ≠ poolKey name s1 :=
      fun h => hs (poolKey_inj h).symm
    exact get_agent_distinct_key hwf hname hname hkey g1 g2

def wConfigs : List String := ["default", "coder"]

def wPool : PoolState := ⟨[], 0⟩

def wPool1 : PoolState := ⟨[("coder:alice", 0)], 1⟩

theorem get_agent_isolation_witness :
    PoolWF wPool ∧ wConfigs.contains "coder" = true ∧
    get_agent wConfigs "coder" "alice" wPool = some (0, wPool1) ∧
    get_agent wConfigs "coder" "alice" wPool1 = some (0, wPool1) ∧
    get_agent wConfigs "coder" "bob" wPool1 =
      some (1, ⟨[("coder:alice", 0), ("coder:bob", 1)], 2⟩) ∧
    (0 : Nat) = 0 ∧ (0 : Nat) ≠ 1 := by
  have hwf : PoolWF wPool := by
    unfold PoolWF wPool
    refine ⟨by simp, by simp, by simp⟩
  have T := get_agent_isolation wConfigs "coder" wPool hwf (by decide)
  refine ⟨hwf, by decide, by decide, by decide, by decide, ?_, ?_⟩
  · exact T.1 "alice" 0 0 wPool1 wPool1 (by decide) (by decide)
  · exact T.2 "alice" "bob" 0 1 wPool1
      ⟨[("coder:alice", 0), ("coder:bob", 1)], 2⟩
      (by decide) (by decide) (by decide)

/-- **C9.** The cache key is the concatenation `name ++ ":" ++ sender_id`
(just `name` when the sender id is empty), so two configured
(name, sender) pairs whose concatenations collide hit the same cache slot:
the second `get_agent` call returns the instance cached by the first, and
the two interface-level pairs share one agent (hence one history). -/
theorem get_agent_key_collision {configs : List String} {n1 s1 n2 s2 : String}
    {st : PoolState} {a1 a2 : Nat} {st1 st2 : PoolState}
    (hwf : PoolWF st)
    (h1 : configs.contains n1 = true) (h2 : configs.contains n2 = true)
    (hkey : (if s2 ≠ "" then n2 ++ ":" ++ s2 else n2) =
            (if s1 ≠ "" then n1 ++ ":" ++ s1 else n1))
    (g1 : get_agent configs n1 s1 st = some (a1, st1))
    (g2 : get_agent configs n2 s2 st1 = some (a2, st2)) :
    a2 = a1 :=
  get_agent_same_key hwf h1 h2 hkey g1 g2

def cConfigs : List String := ["default", "a", "a:b"]

def cPool1 : PoolState := ⟨[("a:b", 0)], 1⟩

theorem get_agent_key_collision_witness :
    PoolWF (⟨[], 0⟩ : PoolState) ∧
    cConfigs.contains "a:b" = true ∧ cConfigs.contains "a" = true ∧
    (if ("b" : String) ≠ "" then "a" ++ ":" ++ "b" else "a") =
      (if ("" : String) ≠ "" then "a:b" ++ ":" ++ "" else "a:b") ∧
    get_agent cConfigs "a:b" "" ⟨[], 0⟩ = some (0, cPool1) ∧
    get_agent cConfigs "a" "b" cPool1 = some (0, cPool1) ∧
    (0 : Nat) = 0 := by
  have hwf : PoolWF (⟨[], 0⟩ : PoolState) := by
    unfold PoolWF
    refine ⟨by simp, by simp, by simp⟩
  refine ⟨hwf, by decide, by decide, by decide, by decide, by decide, ?_⟩
  exact @get_agent_key_collision cConfigs "a:b" "" "a" "b" ⟨[], 0⟩ 0 0
    cPool1 cPool1 hwf (by decide) (by decide) (by decide) (by decide)
    (by decide)

/-! ### router.py — `AgentRouter.route`

The four routing strategies. Regex matching for the `"content"` strategy is
a boolean parameter; messages are immutable records, so the Python in-place
mutation of `msg.text` is modelled by returning the updated message. -/

structure GatewayMessage where
  sender_id : String
  channel : String
  text : String
deriving DecidableEq

structure RouterState where
  strategy : String
  rules : List (String × String)
  default : String
deriving DecidableEq

/-- Python `dict.get(key, dflt)` on an insertion-ordered assoc list. -/
def dictGet (rules : List (String × String)) (key dflt : String) : String :=
  match rules.find? (fun p => p.1 = key) with
  | some p => p.2
  | none => dflt

/-- `AgentRouter.route`. The `"prefix"` branch takes the first rule whose
key is a prefix of the text, removes it and `strip()`s the remainder. -/
def route (contentMatch : String → String → Bool)
    (r : RouterState) (msg : GatewayMessage) : String × GatewayMessage :=
  if r.strategy = "sender" then
    (dictGet r.rules msg.sender_id r.default, msg)
  else if r.strategy = "channel" then
    (dictGet r.rules msg.channel r.default, msg)
  else if r.strategy = "content" then
    match r.rules.find? (fun p => contentMatch p.1 msg.text) with
    | some p => (p.2, msg)
    | none => (r.default, msg)
  else if r.strategy = "prefix" then
    match r.rules.find? (fun p => pyStartsWith p.1 msg.text) with
    | some p => (p.2, { msg with text := pyStrip ⟨msg.text.data.drop p.1.length⟩ })
    | none => (r.default, msg)
  else (r.default, msg)

def ceRouter : RouterState := ⟨"prefix", [("!code ", "coder")], "default"⟩

def ceMsg : GatewayMessage := ⟨"u1", "cli", "!code fix the bug  "⟩

/-- **C8** counterexample: on text with trailing whitespace the routed
message text is the remainder `strip()`ed, not merely the text with the
prefix removed. -/
theorem route_strip_counterexample :
    String.mk (ceMsg.text.data.drop ("!code " : String).length) =
      "fix the bug  " ∧
    (route (fun _ _ => false) ceRouter ceMsg).1 = "coder" ∧
    (route (fun _ _ => false) ceRouter ceMsg).2.text = "fix the bug" ∧
    (route (fun _ _ => false) ceRouter ceMsg).2.text ≠ "fix the bug  " := by
  refine ⟨by decide, by decide, by decide, by decide⟩

/-- **C8** (amended: the remainder is also `strip()`ed). With the prefix
strategy, the first rule whose key starts the text is routed to, and the
message text becomes the remainder after the prefix with surrounding
whitespace stripped; when no rule matches, the default name is returned
and the message is unchanged. -/
theorem route_prefix_strategy (cm : String → String → Bool)
    (r : RouterState) (msg : GatewayMessage) (h : r.strategy = "prefix") :
    (∀ l1 p l2, r.rules = l1 ++ p :: l2 →
      (∀ q ∈ l1, pyStartsWith q.1 msg.text = false) →
      pyStartsWith p.1 msg.text = true →
      route cm r msg =
        (p.2, { msg with text := pyStrip ⟨msg.text.data.drop p.1.length⟩ })) ∧
    ((∀ q ∈ r.rules, pyStartsWith q.1 msg.text = false) →
      route cm r msg = (r.default, msg)) := by
  constructor
  · intro l1 p l2 hr h1 hp
    unfold route
    rw [h]
    rw [if_neg (by decide), if_neg (by decide), if_neg (by decide),
      if_pos rfl, hr, find?_first h1 hp]
  · intro hall
    unfold route
    rw [h]
    rw [if_neg (by decide), if_neg (by decide), if_neg (by decide),
      if_pos rfl, List.find?_eq_none.mpr (fun q hq => by simp [hall q hq])]

def wRouter : RouterState :=
  ⟨"prefix", [("!code ", "coder"), ("!safe ", "safe")], "default"⟩

def wMsg : GatewayMessage := ⟨"u1", "cli", "!code fix the bug"⟩

theorem route_prefix_strategy_witness :
    wRouter.strategy = "prefix" ∧
    wRouter.rules = [] ++ ("!code ", "coder") :: [("!safe ", "safe")] ∧
    pyStartsWith "!code " wMsg.text = true ∧
    route (fun _ _ => false) wRouter wMsg =
      ("coder", { wMsg with text := "fix the bug" }) := by
  refine ⟨rfl, rfl, by decide, ?_⟩
  have h := (route_prefix_strategy (fun _ _ => false) wRouter wMsg rfl).1
    [] ("!code ", "coder") [("!safe ", "safe")] rfl
    (by intro q hq; cases hq) (by decide)
  rw [h]
  decide

end Solstice
